import Mathlib

/-!
Shallow embedding of the LCSC catalog scraper scripts of this repository
(single.py, range.py, rangeWithSpecs.py, main.py, claude.py) and proofs
about pagination, validation, deduplication, description cleaning, spec-map
construction, category discovery and error handling.

Network interaction (requests.get / requests.post), BeautifulSoup text
flattening and the regex-findall step applied to fetched markup are
modelled as oracle parameters; all other string processing is translated
directly from the Python source.  Character classes are modelled over the
ASCII repertoire that the data actually uses.
-/

/-- Python whitespace test (ASCII repertoire) as used by str.split(),
str.strip() and the whitespace class of the regexes in the scripts. -/
def py_isSpace (c : Char) : Bool :=
  c = ' ' || c = '\t' || c = '\n' || c = '\r' || c = '\x0b' || c = '\x0c'

/-- Python str.strip() on a character list. -/
def pyStripChars (l : List Char) : List Char :=
  ((l.dropWhile py_isSpace).reverse.dropWhile py_isSpace).reverse

/-- Python str.strip() on a string. -/
def pyStripS (s : String) : String :=
  (pyStripChars s.toList).asString

/-- Helper for Python str.split() with no separator: accumulates the current
word (reversed) and splits on whitespace runs. -/
def pyWordsAux : List Char → List Char → List (List Char)
  | [], acc => if acc.isEmpty then [] else [acc.reverse]
  | c :: rest, acc =>
    if py_isSpace c then
      if acc.isEmpty then pyWordsAux rest [] else acc.reverse :: pyWordsAux rest []
    else pyWordsAux rest (c :: acc)

/-- Python " ".join(words): single spaces between words. -/
def joinWords : List (List Char) → List Char
  | [] => []
  | [w] => w
  | w :: ws => w ++ ' ' :: joinWords ws

/-- Python " ".join(desc.split()): collapse whitespace runs to single
spaces and drop leading and trailing whitespace. -/
def collapseWs (l : List Char) : List Char :=
  joinWords (pyWordsAux l [])

/-- Truncate the list right before the leftmost position whose suffix
satisfies p.  This models re.sub(pattern-to-end-of-line, blank) for the
noise patterns of clean_description, whose matches always extend to the
end of the (newline-free) string. -/
def cutAtFirst (p : List Char → Bool) : List Char → List Char
  | [] => []
  | c :: rest => if p (c :: rest) then [] else c :: cutAtFirst p rest

/-- Does the suffix match the noise pattern: optional whitespace, a dollar
sign, then at least one digit, comma or dot (first sub of
clean_description). -/
def dollarNoiseAt (l : List Char) : Bool :=
  match l.dropWhile py_isSpace with
  | '$' :: c :: _ => c.isDigit || c = ',' || c = '.'
  | _ => false

/-- Does the suffix match the second noise pattern of clean_description:
optional whitespace, the letters US, a dollar sign, then at least one
digit, comma or dot. -/
def usDollarNoiseAt (l : List Char) : Bool :=
  match l.dropWhile py_isSpace with
  | 'U' :: 'S' :: '$' :: c :: _ => c.isDigit || c = ',' || c = '.'
  | _ => false

/-- Does the suffix match the third noise pattern of clean_description:
at least one whitespace, at least one digit, optional whitespace, then the
letters pcs. -/
def pcsNoiseAt (l : List Char) : Bool :=
  match l with
  | [] => false
  | c :: _ =>
    if py_isSpace c then
      let l1 := l.dropWhile py_isSpace
      match l1 with
      | d :: _ =>
        d.isDigit &&
          ("pcs".toList.isPrefixOf ((l1.dropWhile Char.isDigit).dropWhile py_isSpace))
      | [] => false
    else false

/-- Python desc.rsplit(' ', 1)[0]: everything before the last space
character, or the whole list when it has no space. -/
def pyRsplitLeft (l : List Char) : List Char :=
  if ' ' ∈ l then (((l.reverse).dropWhile (fun c => !(c = ' '))).tail).reverse
  else l

/-- The whitespace-collapsed, noise-stripped text of clean_description,
before truncation and the final strip. -/
def normalizeDesc (s : String) : List Char :=
  cutAtFirst pcsNoiseAt (cutAtFirst usDollarNoiseAt (cutAtFirst dollarNoiseAt
    (collapseWs s.toList)))

/-- clean_description from single.py:76 (identical in range.py:83,
rangeWithSpecs.py:82, claude.py:103, chatgpt_v2.py:97). -/
def clean_description (s : String) : String :=
  if s = "" then ""
  else
    let d := normalizeDesc s
    let d2 := if 200 < d.length then pyRsplitLeft (d.take 200) ++ ('.' :: '.' :: '.' :: []) else d
    (pyStripChars d2).asString

/-- A character list of the shape C followed by at least four decimal
digits and nothing else. -/
def lcscCodeCore (l : List Char) : Bool :=
  match l with
  | 'C' :: ds => decide (4 ≤ ds.length) && ds.all (fun c => c.isDigit)
  | _ => false

/-- Python re.match of the anchored pattern (caret) C, four or more digits,
(dollar) on the whole string; the dollar anchor also accepts one trailing
newline, which re.match allows. -/
def pyFullMatchLcsc (s : String) : Bool :=
  let l := s.toList
  lcscCodeCore l ||
    (match l.getLast? with
     | some '\n' => lcscCodeCore l.dropLast
     | _ => false)

/-- validate_product from single.py:62 (identical in range.py:69,
rangeWithSpecs.py:68, claude.py:86, chatgpt_v2.py:80, over the three
fields it reads). -/
def validate_product (mpn lcsc_code manufacturer : String) : Bool :=
  if mpn = "" || lcsc_code = "" || manufacturer = "" then false
  else if !(pyFullMatchLcsc lcsc_code) then false
  else if mpn.length < 2 then false
  else true

/-- Numeric value of a digit list, as Python int() of the captured group. -/
def digitsToNat (ds : List Char) : Nat :=
  ds.foldl (fun n c => n * 10 + (c.toNat - '0'.toNat)) 0

/-- If the list starts with /category/ followed by at least one digit and
then .html, return the digit group. -/
def categoryIdDigitsAt (l : List Char) : Option (List Char) :=
  if "/category/".toList.isPrefixOf l then
    let rest := l.drop 10
    let ds := rest.takeWhile (fun c => c.isDigit)
    if ds.isEmpty then none
    else if ".html".toList.isPrefixOf (rest.drop ds.length) then some ds
    else none
  else none

/-- Leftmost match of the category-URL pattern, as re.search scans
positions left to right. -/
def searchCatIdAux : List Char → Option Nat
  | [] => none
  | c :: rest =>
    match categoryIdDigitsAt (c :: rest) with
    | some ds => some (digitsToNat ds)
    | none => searchCatIdAux rest

/-- parse_catalog_id_from_url from single.py:119 (identical in
range.py:126, rangeWithSpecs.py:173, chatgpt_v2.py:147); the same pattern
is used for link discovery in range.py:333 and rangeWithSpecs.py:386. -/
def parse_catalog_id_from_url (url : String) : Option Nat :=
  searchCatIdAux url.toList

/-- One entry of the auxiliary parameter list paramVOList of an API item. -/
structure ParamVO where
  paramNameEn : Option String
  paramName : Option String
  paramValueEn : Option String
  paramValue : Option String
deriving DecidableEq

/-- One raw item of the structured API response (dataList element); every
field is optional exactly as a JSON field may be absent or null. -/
structure Item where
  productModel : Option String
  productCode : Option String
  brandNameEn : Option String
  productIntroEn : Option String
  productNameEn : Option String
  firstWmCatalogNameEn : Option String
  secondWmCatalogNameEn : Option String
  thirdWmCatalogNameEn : Option String
  wmCatalogNameEn : Option String
  encapStandard : Option String
  encapEn : Option String
  encap : Option String
  packageEn : Option String
  paramVOList : Option (List ParamVO)
deriving DecidableEq

/-- The result object of a decoded API response. -/
structure ApiResult where
  totalPage : Option Int
  dataList : Option (List Item)
deriving DecidableEq

/-- Outcome of one POST to the product-list API: a transport failure
(timeout, connection error or non-2xx status raised by raise_for_status),
a JSON decode failure, or a decoded body whose result object may be
missing or null. -/
inductive ApiResponse where
  | timeout
  | requestError
  | badJson
  | ok (result : Option ApiResult)

/-- Python (a or b) for an optional string a: b when a is missing or
empty. -/
def pyOrStr (a : Option String) (b : String) : String :=
  match a with
  | some s => if s = "" then b else s
  | none => b

/-- First truthy value of a Python or-chain over optional strings. -/
def firstTruthy : List (Option String) → Option String
  | [] => none
  | o :: rest =>
    match o with
    | some s => if s = "" then firstTruthy rest else some s
    | none => firstTruthy rest

/-- A product row of the structured scrapers. -/
structure ProductS where
  mpn : String
  lcsc_code : String
  manufacturer : String
  description : String
  category : String
  subcategory : String
  childcategory : String
deriving DecidableEq

/-- The per-item body of fetch_products_page_api (single.py:184-217;
identical in range.py:191-224, rangeWithSpecs.py:238-276 modulo the extra
specs column).  detailDesc is the description-fallback
fetch_description_from_detail, an oracle because it performs a network
request keyed by the product code. -/
def productFromItem (detailDesc : String → String) (item : Item) : ProductS :=
  let mpn := pyStripS (pyOrStr item.productModel "")
  let lcsc_code := pyStripS (pyOrStr item.productCode "")
  let manufacturer := pyStripS (pyOrStr item.brandNameEn "")
  let desc_api := clean_description (pyOrStr item.productIntroEn (pyOrStr item.productNameEn ""))
  let description := if desc_api = "" then detailDesc lcsc_code else desc_api
  let category := pyStripS (pyOrStr item.firstWmCatalogNameEn "")
  let subcategory := pyStripS (pyOrStr item.secondWmCatalogNameEn "")
  let childcategory := pyStripS (pyOrStr item.thirdWmCatalogNameEn "")
  ⟨mpn, lcsc_code, manufacturer, description, category, subcategory, childcategory⟩

/-- fetch_products_page_api from single.py:130-222 (identical in
range.py:137-229, rangeWithSpecs.py:184-281): transport and decode
failures yield an empty page with no page count; otherwise items are
mapped to products and filtered by validate_product. -/
def fetch_products_page_api (resp : ApiResponse) (detailDesc : String → String) :
    List ProductS × Option Int :=
  match resp with
  | .timeout => ([], none)
  | .requestError => ([], none)
  | .badJson => ([], none)
  | .ok result =>
    let r := result.getD ⟨none, none⟩
    let total_pages := r.totalPage
    let items := r.dataList.getD []
    ((items.map (productFromItem detailDesc)).filter
        (fun p => validate_product p.mpn p.lcsc_code p.manufacturer),
      total_pages)

/-- Outcome of one GET request: a body, a timeout, or another request
exception (connection error or non-2xx raised by raise_for_status). -/
inductive HttpResult where
  | okResp (body : String)
  | timeout
  | requestError

/-- The exception value propagated by an unguarded requests call. -/
inductive HttpErr where
  | timeout
  | requestError
deriving DecidableEq

/-- fetch_html from single.py:47-59 (identical in range.py:54,
rangeWithSpecs.py:53, claude.py:71, chatgpt_v2.py:65): every failure is
caught and turned into None. -/
def fetch_html_opt (r : HttpResult) : Option String :=
  match r with
  | .okResp body => some body
  | .timeout => none
  | .requestError => none

/-- fetch_html from main.py:59-63: no exception handling, a transport
failure propagates to the caller. -/
def fetch_html_main (r : HttpResult) : Except HttpErr String :=
  match r with
  | .okResp body => .ok body
  | .timeout => .error .timeout
  | .requestError => .error .requestError

/-- fetch_description_from_detail from single.py:92-116 (identical in
range.py:99, rangeWithSpecs.py:98, chatgpt_v2.py:117).  html is the
fetch_html result for the detail URL; descMatch is the re.search of the
Description-to-terminator pattern on the flattened page text (an oracle
together with the BeautifulSoup flattening). -/
def fetch_description_from_detail (html : Option String)
    (descMatch : String → Option String) (lcsc_code : String) : String :=
  if lcsc_code = "" then ""
  else
    match html with
    | none => ""
    | some h =>
      match descMatch h with
      | none => ""
      | some d => clean_description d

/-- Deduplicating accumulation loop shared by every scraper: walk the
page's products, skip keys already seen, append fresh rows tagged with the
page number, and count the newly added rows. -/
def addRows {α : Type} (key : α → String × String) :
    List α → Nat → List (String × String) → List (α × Nat) → Nat →
      List (String × String) × List (α × Nat) × Nat
  | [], _, seen, rows, cnt => (seen, rows, cnt)
  | p :: rest, page, seen, rows, cnt =>
    if key p ∈ seen then addRows key rest page seen rows cnt
    else addRows key rest page (key p :: seen) (rows ++ [(p, page)]) (cnt + 1)

/-- Specification-side first-occurrence filter: keep a record when its key
is neither in seen nor carried by an earlier kept record. -/
def dedupSeen {α : Type} (key : α → String × String) (seen : List (String × String)) :
    List α → List α
  | [] => []
  | p :: rest =>
    if key p ∈ seen then dedupSeen key seen rest
    else p :: dedupSeen key (key p :: seen) rest

/-- First-occurrence filter over a candidate sequence, from the spec words
for the deduplicating aggregator. -/
def dedupFirst {α : Type} (key : α → String × String) (ps : List α) : List α :=
  dedupSeen key [] ps

/-- Aggregation key of the structured scrapers. -/
def keyS (p : ProductS) : String × String := (p.mpn, p.lcsc_code)

/-- Result of one structured category scrape: the emitted rows, the pages
requested in order, and the candidate lists of the processed pages. -/
structure ScrapeResultS where
  rows : List (ProductS × Nat)
  log : List Nat
  trace : List (List ProductS)
deriving DecidableEq

/-- Pages 2 and onward of scrape_lcsc_category (single.py:269-290,
identical in range.py:276-297, rangeWithSpecs.py:328-349): fetch a page,
stop when it has no products, otherwise deduplicate and continue. -/
def scrapeLoopS (http : Nat → Nat → ApiResponse) (detailDesc : String → String) (cid : Nat) :
    Nat → Nat → List (String × String) → List (ProductS × Nat) → List Nat →
      List (List ProductS) → ScrapeResultS
  | 0, _, _, rows, log, trace => ⟨rows, log, trace⟩
  | fuel+1, page, seen, rows, log, trace =>
    let products := (fetch_products_page_api (http cid page) detailDesc).1
    let log2 := log ++ [page]
    if products = [] then ⟨rows, log2, trace⟩
    else
      let r := addRows keyS products page seen rows 0
      scrapeLoopS http detailDesc cid fuel (page + 1) r.1 r.2.1 log2 (trace ++ [products])

/-- scrape_lcsc_category from single.py:225-308 (identical in
range.py:232-315 and rangeWithSpecs.py:284-368 modulo the extra specs
column): parse the catalog id, fetch page 1, read totalPage, cap the page
count, then loop with early stop on an empty page.  http is the
product-list endpoint keyed by catalog id and page number. -/
def scrape_lcsc_category_S (http : Nat → Nat → ApiResponse) (detailDesc : String → String)
    (base_url : String) (max_pages : Int) : ScrapeResultS :=
  match parse_catalog_id_from_url base_url with
  | none => ⟨[], [], []⟩
  | some cid =>
    let fp1 := fetch_products_page_api (http cid 1) detailDesc
    let products_page1 := fp1.1
    if products_page1 = [] then ⟨[], [1], []⟩
    else
      let total_pages : Int := fp1.2.getD 1
      let pages_to_fetch : Int := if 0 < max_pages then min total_pages max_pages else total_pages
      let r := addRows keyS products_page1 1 [] [] 0
      scrapeLoopS http detailDesc cid (pages_to_fetch - 1).toNat 2 r.1 r.2.1 [1] [products_page1]

/-- A product row of the plain text scraper main.py. -/
structure ProductT where
  mpn : String
  lcsc_code : String
  manufacturer : String
deriving DecidableEq

/-- A product row of the text scraper claude.py. -/
structure ProductC where
  mpn : String
  lcsc_code : String
  manufacturer : String
  description : String
deriving DecidableEq

/-- Aggregation key of the main.py scraper. -/
def keyT (p : ProductT) : String × String := (p.mpn, p.lcsc_code)

/-- Aggregation key of the claude.py scraper. -/
def keyC (p : ProductC) : String × String := (p.mpn, p.lcsc_code)

/-- First character class of the MPN capture group of MPN_LCSC_MANUF_RE
(main.py:33-38 and claude.py:41-50): an uppercase letter or digit. -/
def mpnFirstClass (c : Char) : Bool :=
  ('A' ≤ c && c ≤ 'Z') || ('0' ≤ c && c ≤ '9')

/-- Continuation character class of the MPN capture group. -/
def mpnRestClass (c : Char) : Bool :=
  mpnFirstClass c || c = '-' || c = '.' || c = ',' || c = '/'

/-- Character class of the manufacturer capture group. -/
def manufClass (c : Char) : Bool :=
  ('A' ≤ c && c ≤ 'Z') || ('a' ≤ c && c ≤ 'z') || ('0' ≤ c && c ≤ '9') || c = '/'

/-- The language of the MPN capture group: one first-class character
followed by at least one continuation character. -/
def mpnLang (s : String) : Bool :=
  match s.toList with
  | [] => false
  | c :: rest => mpnFirstClass c && !rest.isEmpty && rest.all mpnRestClass

/-- The language of the LCSC-code capture group: C then four or more
digits. -/
def lcscLang (s : String) : Bool :=
  lcscCodeCore s.toList

/-- The language of the manufacturer capture group: nonempty, all
characters in the manufacturer class. -/
def manufLang (s : String) : Bool :=
  !s.toList.isEmpty && s.toList.all manufClass

/-- A triple of capture groups lies in the languages that findall of
MPN_LCSC_MANUF_RE guarantees for its three groups. -/
def matchLang3 (m : String × String × String) : Bool :=
  mpnLang m.1 && lcscLang m.2.1 && manufLang m.2.2

/-- extract_products_from_text from main.py:66-83, taking the findall
capture tuples of the page text: every match becomes a product, with no
validation. -/
def extract_products_from_text (ms : List (String × String × String)) : List ProductT :=
  ms.map (fun m => ⟨m.1, m.2.1, m.2.2⟩)

/-- extract_products_from_text from claude.py:123-159, taking the findall
capture tuples (four groups): fields are stripped, the description is
cleaned, and only validated products are kept. -/
def extract_products_from_text_claude (ms : List (String × String × String × String)) :
    List ProductC :=
  (ms.map (fun m =>
    ProductC.mk (pyStripS m.1) (pyStripS m.2.1) (pyStripS m.2.2.1)
      (clean_description m.2.2.2))).filter
    (fun p => validate_product p.mpn p.lcsc_code p.manufacturer)

/-- Result of one text-source category scrape: emitted rows, pages
requested in order, per-processed-page new-record counts, and the
candidate lists of the processed pages. -/
structure TextScrapeResult (α : Type) where
  rows : List (α × Nat)
  log : List Nat
  stats : List (Nat × Nat)
  trace : List (List α)
deriving DecidableEq

/-- The page loop of scrape_lcsc_category from main.py:86-126: fetch (an
unguarded fetch_html whose exception propagates), extract, deduplicate,
and stop as soon as a page contributes no new record.  tm is the
BeautifulSoup flattening plus regex findall applied to the fetched body. -/
def mainLoop (http : Nat → HttpResult) (tm : String → List (String × String × String)) :
    Nat → Nat → List (String × String) → List (ProductT × Nat) → List Nat →
      List (Nat × Nat) → List (List ProductT) → Except HttpErr (TextScrapeResult ProductT)
  | 0, _, _, rows, log, stats, trace => .ok ⟨rows, log, stats, trace⟩
  | fuel+1, page, seen, rows, log, stats, trace =>
    let log2 := log ++ [page]
    match fetch_html_main (http page) with
    | .error e => .error e
    | .ok html =>
      let products := extract_products_from_text (tm html)
      let r := addRows keyT products page seen rows 0
      let stats2 := stats ++ [(page, r.2.2)]
      let trace2 := trace ++ [products]
      if r.2.2 = 0 then .ok ⟨r.2.1, log2, stats2, trace2⟩
      else mainLoop http tm fuel (page + 1) r.1 r.2.1 log2 stats2 trace2

/-- scrape_lcsc_category from main.py:86-126. -/
def scrape_lcsc_category_main (http : Nat → HttpResult)
    (tm : String → List (String × String × String)) (max_pages : Nat) :
    Except HttpErr (TextScrapeResult ProductT) :=
  mainLoop http tm max_pages 1 [] [] [] [] []

/-- The page loop of scrape_lcsc_category from claude.py:162-222: a failed
fetch increments the consecutive-failure counter and aborts the category
at two, a successful fetch resets it; a page with no new validated
records stops pagination. -/
def claudeLoop (http : Nat → HttpResult) (tm : String → List (String × String × String × String)) :
    Nat → Nat → List (String × String) → List (ProductC × Nat) → Nat → List Nat →
      List (Nat × Nat) → List (List ProductC) → TextScrapeResult ProductC
  | 0, _, _, rows, _, log, stats, trace => ⟨rows, log, stats, trace⟩
  | fuel+1, page, seen, rows, consEmpty, log, stats, trace =>
    let log2 := log ++ [page]
    match fetch_html_opt (http page) with
    | none =>
      if 2 ≤ consEmpty + 1 then ⟨rows, log2, stats, trace⟩
      else claudeLoop http tm fuel (page + 1) seen rows (consEmpty + 1) log2 stats trace
    | some html =>
      let products := extract_products_from_text_claude (tm html)
      let r := addRows keyC products page seen rows 0
      let stats2 := stats ++ [(page, r.2.2)]
      let trace2 := trace ++ [products]
      if r.2.2 = 0 then ⟨r.2.1, log2, stats2, trace2⟩
      else claudeLoop http tm fuel (page + 1) r.1 r.2.1 0 log2 stats2 trace2

/-- scrape_lcsc_category from claude.py:162-222. -/
def scrape_lcsc_category_claude (http : Nat → HttpResult)
    (tm : String → List (String × String × String × String)) (max_pages : Nat) :
    TextScrapeResult ProductC :=
  claudeLoop http tm max_pages 1 [] [] 0 [] [] []

/-- Association lookup used to model Python dict membership and
indexing for the specs map. -/
def alookup (k : String) : List (String × String) → Option String
  | [] => none
  | (a, v) :: rest => if a = k then some v else alookup k rest

/-- The Category, Manufacturer and Package assignments of
build_specs_from_item (rangeWithSpecs.py:131-154). -/
def build_specs_base (item : Item) : List (String × String) :=
  let s0 : List (String × String) := []
  let s1 :=
    match firstTruthy [item.wmCatalogNameEn, item.firstWmCatalogNameEn,
        item.secondWmCatalogNameEn, item.thirdWmCatalogNameEn] with
    | some c => s0 ++ [("Category", pyStripS c)]
    | none => s0
  let s2 :=
    match item.brandNameEn with
    | some m => if m = "" then s1 else s1 ++ [("Manufacturer", pyStripS m)]
    | none => s1
  match firstTruthy [item.encapStandard, item.encapEn, item.encap, item.packageEn] with
  | some p => s2 ++ [("Package", pyStripS p)]
  | none => s2

/-- The paramVOList loop of build_specs_from_item
(rangeWithSpecs.py:157-168): blank names or values are skipped, and an
entry whose name is already a key is skipped. -/
def addParams (specs : List (String × String)) : List ParamVO → List (String × String)
  | [] => specs
  | p :: rest =>
    let name := pyStripS ((firstTruthy [p.paramNameEn, p.paramName]).getD "")
    let value := pyStripS ((firstTruthy [p.paramValueEn, p.paramValue]).getD "")
    if name = "" || value = "" then addParams specs rest
    else if (alookup name specs).isSome then addParams specs rest
    else addParams (specs ++ [(name, value)]) rest

/-- build_specs_from_item from rangeWithSpecs.py:125-170. -/
def build_specs_from_item (item : Item) : List (String × String) :=
  addParams (build_specs_base item) (item.paramVOList.getD [])

/-- One anchor tag of the category index page: href attribute and visible
text (get_text already applied by the BeautifulSoup oracle). -/
structure Anchor where
  href : String
  text : String

/-- A discovered category descriptor. -/
structure CatDesc where
  id : Nat
  url : String
  name : String
deriving DecidableEq

/-- Substring test, as the Python in operator on strings. -/
def containsSubstr (pat : List Char) : List Char → Bool
  | [] => pat.isEmpty
  | c :: rest => pat.isPrefixOf (c :: rest) || containsSubstr pat rest

/-- The anchor loop body of get_all_category_urls from range.py:331-354:
no id filtering happens during discovery in range.py. -/
def discoverStepRange (acc : List CatDesc) (a : Anchor) : List CatDesc :=
  match searchCatIdAux a.href.toList with
  | none => acc
  | some cid =>
    let name := pyStripS a.text
    if name = "" then acc
    else if containsSubstr "View All".toList name.toList then acc
    else
      let full_url := if "http".toList.isPrefixOf a.href.toList then a.href
        else "https://www.lcsc.com" ++ a.href
      if acc.any (fun c => c.id = cid) then acc else acc ++ [⟨cid, full_url, name⟩]

/-- get_all_category_urls from range.py:318-358; html is the fetched index
page and anchorsOf the BeautifulSoup anchor enumeration. -/
def get_all_category_urls_range (html : Option String) (anchorsOf : String → List Anchor) :
    List CatDesc :=
  match html with
  | none => []
  | some h => if h = "" then [] else (anchorsOf h).foldl discoverStepRange []

/-- The anchor loop body of get_all_category_urls from
rangeWithSpecs.py:384-411: ids outside the inclusive range are dropped
before any other check. -/
def discoverStepRws (idStart idEnd : Nat) (acc : List CatDesc) (a : Anchor) : List CatDesc :=
  match searchCatIdAux a.href.toList with
  | none => acc
  | some cid =>
    if cid < idStart || idEnd < cid then acc
    else
      let name := pyStripS a.text
      if name = "" then acc
      else if containsSubstr "View All".toList name.toList then acc
      else
        let full_url := if "http".toList.isPrefixOf a.href.toList then a.href
          else "https://www.lcsc.com" ++ a.href
        if acc.any (fun c => c.id = cid) then acc else acc ++ [⟨cid, full_url, name⟩]

/-- get_all_category_urls from rangeWithSpecs.py:371-415. -/
def get_all_category_urls_rws (idStart idEnd : Nat) (html : Option String)
    (anchorsOf : String → List Anchor) : List CatDesc :=
  match html with
  | none => []
  | some h => if h = "" then [] else (anchorsOf h).foldl (discoverStepRws idStart idEnd) []

/-- The id-range filter applied in main of range.py:400-404 to the
discovered category list before scraping. -/
def filterCatRange (idStart idEnd : Nat) (cats : List CatDesc) : List CatDesc :=
  cats.filter (fun c => decide (idStart ≤ c.id) && decide (c.id ≤ idEnd))

/-! ### Concrete fixtures used by witnesses and counterexamples -/

/-- A valid raw item (model AB12, code C10001). -/
def itemA : Item :=
  ⟨some "AB12", some "C10001", some "Maker", some "alpha part",
    none, none, none, none, none, none, none, none, none, none⟩

/-- A second valid raw item (model CD34, code C10002). -/
def itemB : Item :=
  ⟨some "CD34", some "C10002", some "Maker", some "beta part",
    none, none, none, none, none, none, none, none, none, none⟩

/-- The product that productFromItem builds from itemA. -/
def productA : ProductS :=
  ⟨"AB12", "C10001", "Maker", "alpha part", "", "", ""⟩

/-- A service that reports three total pages, repeats the same item on
pages 1 and 2, and serves a fresh item on later pages. -/
def httpDupPage2 : Nat → Nat → ApiResponse := fun _ page =>
  if page = 1 then .ok (some ⟨some 3, some [itemA]⟩)
  else if page = 2 then .ok (some ⟨some 3, some [itemA]⟩)
  else .ok (some ⟨some 3, some [itemB]⟩)

/-- A service that reports three total pages and serves the same item on
every page. -/
def httpThreePages : Nat → Nat → ApiResponse := fun _ page =>
  if page = 1 then .ok (some ⟨some 3, some [itemA]⟩)
  else .ok (some ⟨some 3, some [itemB]⟩)

/-- A service whose first page decodes with five total pages but an empty
data list. -/
def httpEmptyFirst : Nat → Nat → ApiResponse := fun _ page =>
  if page = 1 then .ok (some ⟨some 5, some []⟩)
  else .ok (some ⟨some 5, some [itemA]⟩)

/-- A GET service that always succeeds with the same body. -/
def httpAlwaysOk : Nat → HttpResult := fun _ => .okResp "pg"

/-- A GET service that fails on pages 1 and 2 and succeeds afterwards. -/
def httpFailTwice : Nat → HttpResult := fun page =>
  if page ≤ 2 then .timeout else .okResp "pg"

/-- A GET service that fails on pages 1 and 3 only. -/
def httpFailAlternate : Nat → HttpResult := fun page =>
  if page = 1 ∨ page = 3 then .timeout else .okResp "pg"

/-- Text matches of the claude.py regex: one fixed capture tuple per page. -/
def tmOneMatch : String → List (String × String × String × String) :=
  fun _ => [("AB12", "C10001", "Maker", "mosfet")]

/-- Text matches of the main.py regex: one fixed capture tuple per page. -/
def tmOneMatch3 : String → List (String × String × String) :=
  fun _ => [("AB12", "C10001", "Maker")]

/-- The product main.py builds from the fixed capture tuple. -/
def productT0 : ProductT := ⟨"AB12", "C10001", "Maker"⟩

/-- The result of the main.py scrape over httpAlwaysOk and tmOneMatch3. -/
def resultT0 : TextScrapeResult ProductT :=
  ⟨[(productT0, 1)], [1, 2], [(1, 1), (2, 0)], [[productT0], [productT0]]⟩

/-- An item whose auxiliary parameter list tries to overwrite the reserved
Manufacturer key, carries a blank-name entry, and adds one fresh key. -/
def itemSpecs : Item :=
  ⟨none, none, some "TI", none, none, none, none, none, none, none, none, none, none,
    some [⟨some "Manufacturer", none, some "FAKE", none⟩,
      ⟨some " ", none, some "x", none⟩,
      ⟨some "Width", none, some "5mm", none⟩]⟩

/-- An index page with a single category link inside the id range. -/
def anchorsOne : String → List Anchor := fun _ =>
  [⟨"/category/1250.html", "Resistors"⟩]

/-- The category URL used by the structured-scrape witnesses. -/
def urlCat874 : String := "https://www.lcsc.com/category/874.html"

/-- A 251-character description: 100 letters, one space, 150 letters. -/
def sWitC4 : String := String.mk (List.replicate 100 'a' ++ ' ' :: List.replicate 150 'b')

/-! ### Core lemmas about the deduplicating accumulation loop -/

theorem addRows_rows {α : Type} (key : α → String × String) (ps : List α) (page : Nat)
    (seen : List (String × String)) (rows : List (α × Nat)) (cnt : Nat) :
    (addRows key ps page seen rows cnt).2.1
      = rows ++ (dedupSeen key seen ps).map (fun p => (p, page)) := by
  induction ps generalizing seen rows cnt with
  | nil => simp [addRows, dedupSeen]
  | cons p rest ih =>
    by_cases h : key p ∈ seen
    · simp [addRows, dedupSeen, h, ih]
    · simp [addRows, dedupSeen, h, ih]

theorem addRows_seen {α : Type} (key : α → String × String) (ps : List α) (page : Nat)
    (seen : List (String × String)) (rows : List (α × Nat)) (cnt : Nat) :
    (addRows key ps page seen rows cnt).1
      = ((dedupSeen key seen ps).map key).reverse ++ seen := by
  induction ps generalizing seen rows cnt with
  | nil => simp [addRows, dedupSeen]
  | cons p rest ih =>
    by_cases h : key p ∈ seen
    · simp [addRows, dedupSeen, h, ih]
    · simp [addRows, dedupSeen, h, ih]

theorem addRows_cnt {α : Type} (key : α → String × String) (ps : List α) (page : Nat)
    (seen : List (String × String)) (rows : List (α × Nat)) (cnt : Nat) :
    (addRows key ps page seen rows cnt).2.2 = cnt + (dedupSeen key seen ps).length := by
  induction ps generalizing seen rows cnt with
  | nil => simp [addRows, dedupSeen]
  | cons p rest ih =>
    by_cases h : key p ∈ seen
    · simp [addRows, dedupSeen, h, ih]
    · simp [addRows, dedupSeen, h, ih]
      omega

theorem dedupSeen_append {α : Type} (key : α → String × String) (seen : List (String × String))
    (ps qs : List α) :
    dedupSeen key seen (ps ++ qs)
      = dedupSeen key seen ps
        ++ dedupSeen key (((dedupSeen key seen ps).map key).reverse ++ seen) qs := by
  induction ps generalizing seen with
  | nil => simp [dedupSeen]
  | cons p rest ih =>
    by_cases h : key p ∈ seen
    · simp [dedupSeen, h, ih]
    · simp [dedupSeen, h, ih]

theorem dedupSeen_subset {α : Type} (key : α → String × String) (seen : List (String × String))
    (ps : List α) : ∀ p ∈ dedupSeen key seen ps, p ∈ ps := by
  induction ps generalizing seen with
  | nil => simp [dedupSeen]
  | cons p rest ih =>
    by_cases h : key p ∈ seen
    · simp only [dedupSeen, h, if_pos]
      intro q hq
      exact List.mem_cons_of_mem _ (ih _ _ hq)
    · simp only [dedupSeen, h, if_neg]
      intro q hq
      rcases List.mem_cons.mp hq with h1 | h1
      · exact h1 ▸ List.mem_cons_self _ _
      · exact List.mem_cons_of_mem _ (ih _ _ h1)

theorem dedupSeen_keys_fresh {α : Type} (key : α → String × String)
    (seen : List (String × String)) (ps : List α) :
    ∀ k ∈ (dedupSeen key seen ps).map key, k ∉ seen := by
  induction ps generalizing seen with
  | nil => simp [dedupSeen]
  | cons p rest ih =>
    by_cases h : key p ∈ seen
    · simpa [dedupSeen, h] using ih seen
    · intro k hk hs
      simp [dedupSeen, h] at hk
      rcases hk with hk | ⟨a, ha, rfl⟩
      · exact h (hk ▸ hs)
      · exact ih (key p :: seen) (key a) (List.mem_map_of_mem key ha)
          (List.mem_cons_of_mem _ hs)

theorem dedupSeen_keys_nodup {α : Type} (key : α → String × String)
    (seen : List (String × String)) (ps : List α) :
    ((dedupSeen key seen ps).map key).Nodup := by
  induction ps generalizing seen with
  | nil => simp [dedupSeen]
  | cons p rest ih =>
    by_cases h : key p ∈ seen
    · simpa [dedupSeen, h] using ih seen
    · simp only [dedupSeen, h, if_false, List.map_cons, List.nodup_cons, ite_false]
      refine ⟨?_, ih (key p :: seen)⟩
      intro hmem
      exact dedupSeen_keys_fresh key (key p :: seen) rest (key p) hmem
        (List.mem_cons_self _ _)

theorem dedupFirst_keys_nodup {α : Type} (key : α → String × String) (ps : List α) :
    ((dedupFirst key ps).map key).Nodup :=
  dedupSeen_keys_nodup key [] ps

theorem addRows_cnt_pos {α : Type} (key : α → String × String) (p : α) (rest : List α)
    (page : Nat) (rows : List (α × Nat)) :
    (addRows key (p :: rest) page [] rows 0).2.2 ≠ 0 := by
  rw [addRows_cnt]
  simp [dedupSeen]

/-! ### Lemmas about the structured pagination loop -/

theorem dedupFirst_append {α : Type} (key : α → String × String) (xs ys : List α) :
    dedupFirst key (xs ++ ys)
      = dedupFirst key xs ++ dedupSeen key ((dedupFirst key xs).map key).reverse ys := by
  unfold dedupFirst
  rw [dedupSeen_append]
  simp

theorem scrapeLoopS_rows_trace (http : Nat → Nat → ApiResponse) (dd : String → String)
    (cid : Nat) :
    ∀ (fuel page : Nat) (seen : List (String × String)) (rows : List (ProductS × Nat))
      (log : List Nat) (trace : List (List ProductS)),
      seen = ((dedupFirst keyS trace.flatten).map keyS).reverse →
      rows.map Prod.fst = dedupFirst keyS trace.flatten →
      (scrapeLoopS http dd cid fuel page seen rows log trace).rows.map Prod.fst
        = dedupFirst keyS (scrapeLoopS http dd cid fuel page seen rows log trace).trace.flatten := by
  intro fuel
  induction fuel with
  | zero =>
    intro page seen rows log trace _ hrows
    simpa [scrapeLoopS] using hrows
  | succ fuel ih =>
    intro page seen rows log trace hseen hrows
    by_cases hp : (fetch_products_page_api (http cid page) dd).1 = []
    · simpa [scrapeLoopS, hp] using hrows
    · have hflat : (trace ++ [(fetch_products_page_api (http cid page) dd).1]).flatten
          = trace.flatten ++ (fetch_products_page_api (http cid page) dd).1 := by simp
      simp only [scrapeLoopS, hp, if_neg, ite_false]
      apply ih
      · rw [addRows_seen, hseen, hflat, dedupFirst_append]
        simp [List.reverse_append]
      · rw [addRows_rows, hflat, dedupFirst_append, hseen]
        simp only [List.map_append, List.map_map]
        simp [hrows, Function.comp_def]

theorem scrapeLoopS_log_bounded (http : Nat → Nat → ApiResponse) (dd : String → String)
    (cid : Nat) (n : Nat)
    (hn : (fetch_products_page_api (http cid n) dd).1 = []) :
    ∀ (fuel page : Nat) (seen : List (String × String)) (rows : List (ProductS × Nat))
      (log : List Nat) (trace : List (List ProductS)),
      page ≤ n → (∀ m ∈ log, m ≤ n) →
      ∀ m ∈ (scrapeLoopS http dd cid fuel page seen rows log trace).log, m ≤ n := by
  intro fuel
  induction fuel with
  | zero =>
    intro page seen rows log trace _ hlog
    simpa [scrapeLoopS] using hlog
  | succ fuel ih =>
    intro page seen rows log trace hpage hlog
    have hlog2 : ∀ m ∈ log ++ [page], m ≤ n := by
      intro m hm
      rcases List.mem_append.mp hm with hm | hm
      · exact hlog m hm
      · simpa using (List.mem_singleton.mp hm) ▸ hpage
    by_cases hp : (fetch_products_page_api (http cid page) dd).1 = []
    · simpa [scrapeLoopS, hp] using hlog2
    · have hne : page ≠ n := by
        intro he
        exact hp (he ▸ hn)
      simp only [scrapeLoopS, hp, ite_false]
      exact ih (page + 1) _ _ _ _ (by omega) hlog2

theorem scrapeLoopS_log_all_nonempty (http : Nat → Nat → ApiResponse) (dd : String → String)
    (cid : Nat) :
    ∀ (fuel page : Nat) (seen : List (String × String)) (rows : List (ProductS × Nat))
      (log : List Nat) (trace : List (List ProductS)),
      (∀ q, page ≤ q → q < page + fuel → (fetch_products_page_api (http cid q) dd).1 ≠ []) →
      (scrapeLoopS http dd cid fuel page seen rows log trace).log
        = log ++ List.range' page fuel := by
  intro fuel
  induction fuel with
  | zero =>
    intro page seen rows log trace _
    simp [scrapeLoopS]
  | succ fuel ih =>
    intro page seen rows log trace hne
    have hp : (fetch_products_page_api (http cid page) dd).1 ≠ [] :=
      hne page le_rfl (by omega)
    simp only [scrapeLoopS, hp, ite_false]
    rw [ih (page + 1) _ _ _ _ (fun q h1 h2 => hne q (by omega) (by omega))]
    rw [List.range'_succ]
    simp

/-! ### Lemmas about the text-source pagination loops -/

theorem addRows_invariant_step {α : Type} (key : α → String × String) (F P : List α)
    (page : Nat) (seen : List (String × String)) (rows : List (α × Nat))
    (hseen : seen = ((dedupFirst key F).map key).reverse)
    (hrows : rows.map Prod.fst = dedupFirst key F) :
    (addRows key P page seen rows 0).2.1.map Prod.fst = dedupFirst key (F ++ P)
      ∧ (addRows key P page seen rows 0).1 = ((dedupFirst key (F ++ P)).map key).reverse := by
  constructor
  · rw [addRows_rows, dedupFirst_append, hseen]
    simp only [List.map_append, List.map_map]
    simp [hrows, Function.comp_def]
  · rw [addRows_seen, hseen, dedupFirst_append]
    simp [List.reverse_append]

theorem mainLoop_stats_stop (http : Nat → HttpResult)
    (tm : String → List (String × String × String)) :
    ∀ (fuel page : Nat) (seen : List (String × String)) (rows : List (ProductT × Nat))
      (log : List Nat) (stats : List (Nat × Nat)) (trace : List (List ProductT))
      (res : TextScrapeResult ProductT),
      (∀ e ∈ stats, e.2 ≠ 0) → (∀ m ∈ log, m < page) → (∀ e ∈ stats, e.1 < page) →
      mainLoop http tm fuel page seen rows log stats trace = .ok res →
      ∀ n m, (n, 0) ∈ res.stats → m ∈ res.log → m ≤ n := by
  intro fuel
  induction fuel with
  | zero =>
    intro page seen rows log stats trace res hz _ _ hres n m hn hm
    simp only [mainLoop] at hres
    cases hres
    exact absurd rfl (hz (n, 0) hn)
  | succ fuel ih =>
    intro page seen rows log stats trace res hz hlog hstats hres n m hn hm
    simp only [mainLoop] at hres
    cases hfe : fetch_html_main (http page) with
    | error e =>
      rw [hfe] at hres
      cases hres
    | ok html =>
      rw [hfe] at hres
      simp only at hres
      by_cases hcnt :
          (addRows keyT (extract_products_from_text (tm html)) page seen rows 0).2.2 = 0
      · rw [if_pos hcnt] at hres
        cases hres
        simp only at hn hm
        rcases List.mem_append.mp hn with hn | hn
        · exact absurd rfl (hz (n, 0) hn)
        · have hn2 : n = page := by
            simpa using congrArg Prod.fst (List.mem_singleton.mp hn)
          rcases List.mem_append.mp hm with hm | hm
          · exact le_of_lt (hn2 ▸ hlog m hm)
          · simp [List.mem_singleton.mp hm, hn2]
      · rw [if_neg hcnt] at hres
        refine ih (page + 1) _ _ _ _ _ res ?_ ?_ ?_ hres n m hn hm
        · intro e he
          rcases List.mem_append.mp he with he | he
          · exact hz e he
          · rw [List.mem_singleton.mp he]
            exact hcnt
        · intro x hx
          rcases List.mem_append.mp hx with hx | hx
          · exact Nat.lt_succ_of_lt (hlog x hx)
          · rw [List.mem_singleton.mp hx]
            omega
        · intro e he
          rcases List.mem_append.mp he with he | he
          · exact Nat.lt_succ_of_lt (hstats e he)
          · rw [List.mem_singleton.mp he]
            simp

theorem claudeLoop_stats_stop (http : Nat → HttpResult)
    (tm : String → List (String × String × String × String)) :
    ∀ (fuel page : Nat) (seen : List (String × String)) (rows : List (ProductC × Nat))
      (cons : Nat) (log : List Nat) (stats : List (Nat × Nat)) (trace : List (List ProductC)),
      (∀ e ∈ stats, e.2 ≠ 0) → (∀ m ∈ log, m < page) → (∀ e ∈ stats, e.1 < page) →
      ∀ n m, (n, 0) ∈ (claudeLoop http tm fuel page seen rows cons log stats trace).stats →
        m ∈ (claudeLoop http tm fuel page seen rows cons log stats trace).log → m ≤ n := by
  intro fuel
  induction fuel with
  | zero =>
    intro page seen rows cons log stats trace hz _ _ n m hn hm
    simp only [claudeLoop] at hn hm
    exact absurd rfl (hz (n, 0) hn)
  | succ fuel ih =>
    intro page seen rows cons log stats trace hz hlog hstats n m hn hm
    simp only [claudeLoop] at hn hm
    cases hfe : fetch_html_opt (http page) with
    | none =>
      rw [hfe] at hn hm
      simp only at hn hm
      by_cases hc : 2 ≤ cons + 1
      · rw [if_pos hc] at hn hm
        exact absurd rfl (hz (n, 0) hn)
      · rw [if_neg hc] at hn hm
        refine ih (page + 1) seen rows (cons + 1) _ _ _ hz ?_ ?_ n m hn hm
        · intro x hx
          rcases List.mem_append.mp hx with hx | hx
          · exact Nat.lt_succ_of_lt (hlog x hx)
          · rw [List.mem_singleton.mp hx]
            omega
        · intro e he
          exact Nat.lt_succ_of_lt (hstats e he)
    | some html =>
      rw [hfe] at hn hm
      simp only at hn hm
      by_cases hcnt :
          (addRows keyC (extract_products_from_text_claude (tm html)) page seen rows 0).2.2 = 0
      · rw [if_pos hcnt] at hn hm
        rcases List.mem_append.mp hn with hn | hn
        · exact absurd rfl (hz (n, 0) hn)
        · have hn2 : n = page := by
            simpa using congrArg Prod.fst (List.mem_singleton.mp hn)
          rcases List.mem_append.mp hm with hm | hm
          · exact le_of_lt (hn2 ▸ hlog m hm)
          · simp [List.mem_singleton.mp hm, hn2]
      · rw [if_neg hcnt] at hn hm
        refine ih (page + 1) _ _ 0 _ _ _ ?_ ?_ ?_ n m hn hm
        · intro e he
          rcases List.mem_append.mp he with he | he
          · exact hz e he
          · rw [List.mem_singleton.mp he]
            exact hcnt
        · intro x hx
          rcases List.mem_append.mp hx with hx | hx
          · exact Nat.lt_succ_of_lt (hlog x hx)
          · rw [List.mem_singleton.mp hx]
            omega
        · intro e he
          rcases List.mem_append.mp he with he | he
          · exact Nat.lt_succ_of_lt (hstats e he)
          · rw [List.mem_singleton.mp he]
            simp

theorem mainLoop_rows_trace (http : Nat → HttpResult)
    (tm : String → List (String × String × String)) :
    ∀ (fuel page : Nat) (seen : List (String × String)) (rows : List (ProductT × Nat))
      (log : List Nat) (stats : List (Nat × Nat)) (trace : List (List ProductT))
      (res : TextScrapeResult ProductT),
      seen = ((dedupFirst keyT trace.flatten).map keyT).reverse →
      rows.map Prod.fst = dedupFirst keyT trace.flatten →
      mainLoop http tm fuel page seen rows log stats trace = .ok res →
      res.rows.map Prod.fst = dedupFirst keyT res.trace.flatten := by
  intro fuel
  induction fuel with
  | zero =>
    intro page seen rows log stats trace res _ hrows hres
    simp only [mainLoop] at hres
    cases hres
    exact hrows
  | succ fuel ih =>
    intro page seen rows log stats trace res hseen hrows hres
    simp only [mainLoop] at hres
    cases hfe : fetch_html_main (http page) with
    | error e =>
      rw [hfe] at hres
      cases hres
    | ok html =>
      rw [hfe] at hres
      simp only at hres
      have hstep := addRows_invariant_step keyT trace.flatten
        (extract_products_from_text (tm html)) page seen rows hseen hrows
      have hflat : (trace ++ [extract_products_from_text (tm html)]).flatten
          = trace.flatten ++ extract_products_from_text (tm html) := by simp
      by_cases hcnt :
          (addRows keyT (extract_products_from_text (tm html)) page seen rows 0).2.2 = 0
      · rw [if_pos hcnt] at hres
        cases hres
        simpa [hflat] using hstep.1
      · rw [if_neg hcnt] at hres
        exact ih (page + 1) _ _ _ _ _ res (by rw [hstep.2, hflat]) (by rw [hstep.1, hflat]) hres

/-! ### Validation lemmas -/

theorem fetch_products_page_api_validated (resp : ApiResponse) (dd : String → String) :
    ∀ p ∈ (fetch_products_page_api resp dd).1,
      validate_product p.mpn p.lcsc_code p.manufacturer = true := by
  cases resp with
  | timeout => simp [fetch_products_page_api]
  | requestError => simp [fetch_products_page_api]
  | badJson => simp [fetch_products_page_api]
  | ok result =>
    intro p hp
    simp only [fetch_products_page_api] at hp
    exact (List.mem_filter.mp hp).2

theorem addRows_rows_pred {α : Type} (key : α → String × String) (P : α → Prop)
    (ps : List α) (page : Nat) (seen : List (String × String)) (rows : List (α × Nat))
    (cnt : Nat) (hrows : ∀ r ∈ rows, P r.1) (hps : ∀ p ∈ ps, P p) :
    ∀ r ∈ (addRows key ps page seen rows cnt).2.1, P r.1 := by
  rw [addRows_rows]
  intro r hr
  rcases List.mem_append.mp hr with hr | hr
  · exact hrows r hr
  · rcases List.mem_map.mp hr with ⟨p, hp, rfl⟩
    exact hps p (dedupSeen_subset key seen ps p hp)

theorem scrapeLoopS_rows_validated (http : Nat → Nat → ApiResponse) (dd : String → String)
    (cid : Nat) :
    ∀ (fuel page : Nat) (seen : List (String × String)) (rows : List (ProductS × Nat))
      (log : List Nat) (trace : List (List ProductS)),
      (∀ r ∈ rows, validate_product r.1.mpn r.1.lcsc_code r.1.manufacturer = true) →
      ∀ r ∈ (scrapeLoopS http dd cid fuel page seen rows log trace).rows,
        validate_product r.1.mpn r.1.lcsc_code r.1.manufacturer = true := by
  intro fuel
  induction fuel with
  | zero =>
    intro page seen rows log trace hrows
    simpa [scrapeLoopS] using hrows
  | succ fuel ih =>
    intro page seen rows log trace hrows
    by_cases hp : (fetch_products_page_api (http cid page) dd).1 = []
    · simpa [scrapeLoopS, hp] using hrows
    · simp only [scrapeLoopS, hp, ite_false]
      exact ih (page + 1) _ _ _ _
        (addRows_rows_pred keyS _ _ page seen rows 0 hrows
          (fetch_products_page_api_validated (http cid page) dd))

theorem matchLang3_validate (m : String × String × String) (h : matchLang3 m = true) :
    validate_product m.1 m.2.1 m.2.2 = true := by
  obtain ⟨⟨h1, h2⟩, h3⟩ :
      (mpnLang m.1 = true ∧ lcscLang m.2.1 = true) ∧ manufLang m.2.2 = true := by
    simpa [matchLang3] using h
  rcases hl : m.1.toList with _ | ⟨c, rest⟩
  · rw [mpnLang, hl] at h1
    simp at h1
  · have hmp_ne : m.1 ≠ "" := by
      intro he
      rw [he] at hl
      simp at hl
    have hrest : rest ≠ [] := by
      rw [mpnLang, hl] at h1
      simp only [Bool.and_eq_true, Bool.not_eq_true'] at h1
      simpa using h1.1.2
    have hlen : ¬ (m.1.length < 2) := by
      have hco : m.1.length = m.1.toList.length := rfl
      rw [hco, hl]
      cases rest with
      | nil => exact absurd rfl hrest
      | cons d ds => simp
    have hcode : pyFullMatchLcsc m.2.1 = true := by
      rw [lcscLang] at h2
      simp only [pyFullMatchLcsc, Bool.or_eq_true]
      exact Or.inl h2
    have hcode_ne : m.2.1 ≠ "" := by
      intro he
      rw [he] at h2
      simp [lcscLang, lcscCodeCore] at h2
    have hman_ne : m.2.2 ≠ "" := by
      intro he
      rw [he] at h3
      simp [manufLang] at h3
    simp [validate_product, hmp_ne, hcode_ne, hman_ne, hcode, hlen]

theorem extract_main_validated (ms : List (String × String × String))
    (hms : ∀ m ∈ ms, matchLang3 m = true) :
    ∀ p ∈ extract_products_from_text ms,
      validate_product p.mpn p.lcsc_code p.manufacturer = true := by
  intro p hp
  rcases List.mem_map.mp hp with ⟨m, hm, rfl⟩
  exact matchLang3_validate m (hms m hm)

theorem extract_claude_validated (ms : List (String × String × String × String)) :
    ∀ p ∈ extract_products_from_text_claude ms,
      validate_product p.mpn p.lcsc_code p.manufacturer = true := by
  intro p hp
  exact (List.mem_filter.mp hp).2

theorem mainLoop_rows_validated (http : Nat → HttpResult)
    (tm : String → List (String × String × String))
    (hlang : ∀ s, ∀ m ∈ tm s, matchLang3 m = true) :
    ∀ (fuel page : Nat) (seen : List (String × String)) (rows : List (ProductT × Nat))
      (log : List Nat) (stats : List (Nat × Nat)) (trace : List (List ProductT))
      (res : TextScrapeResult ProductT),
      (∀ r ∈ rows, validate_product r.1.mpn r.1.lcsc_code r.1.manufacturer = true) →
      mainLoop http tm fuel page seen rows log stats trace = .ok res →
      ∀ r ∈ res.rows, validate_product r.1.mpn r.1.lcsc_code r.1.manufacturer = true := by
  intro fuel
  induction fuel with
  | zero =>
    intro page seen rows log stats trace res hrows hres
    simp only [mainLoop] at hres
    cases hres
    exact hrows
  | succ fuel ih =>
    intro page seen rows log stats trace res hrows hres
    simp only [mainLoop] at hres
    cases hfe : fetch_html_main (http page) with
    | error e =>
      rw [hfe] at hres
      cases hres
    | ok html =>
      rw [hfe] at hres
      simp only at hres
      have hnew : ∀ r ∈ (addRows keyT (extract_products_from_text (tm html)) page seen rows 0).2.1,
          validate_product r.1.mpn r.1.lcsc_code r.1.manufacturer = true :=
        addRows_rows_pred keyT _ _ page seen rows 0 hrows
          (extract_main_validated (tm html) (hlang html))
      by_cases hcnt :
          (addRows keyT (extract_products_from_text (tm html)) page seen rows 0).2.2 = 0
      · rw [if_pos hcnt] at hres
        cases hres
        exact hnew
      · rw [if_neg hcnt] at hres
        exact ih (page + 1) _ _ _ _ _ res hnew hres

theorem claudeLoop_rows_validated (http : Nat → HttpResult)
    (tm : String → List (String × String × String × String)) :
    ∀ (fuel page : Nat) (seen : List (String × String)) (rows : List (ProductC × Nat))
      (cons : Nat) (log : List Nat) (stats : List (Nat × Nat)) (trace : List (List ProductC)),
      (∀ r ∈ rows, validate_product r.1.mpn r.1.lcsc_code r.1.manufacturer = true) →
      ∀ r ∈ (claudeLoop http tm fuel page seen rows cons log stats trace).rows,
        validate_product r.1.mpn r.1.lcsc_code r.1.manufacturer = true := by
  intro fuel
  induction fuel with
  | zero =>
    intro page seen rows cons log stats trace hrows
    simpa [claudeLoop] using hrows
  | succ fuel ih =>
    intro page seen rows cons log stats trace hrows
    simp only [claudeLoop]
    cases hfe : fetch_html_opt (http page) with
    | none =>
      simp only
      by_cases hc : 2 ≤ cons + 1
      · rw [if_pos hc]
        exact hrows
      · rw [if_neg hc]
        exact ih (page + 1) seen rows (cons + 1) _ _ _ hrows
    | some html =>
      simp only
      have hnew : ∀ r ∈ (addRows keyC (extract_products_from_text_claude (tm html))
            page seen rows 0).2.1,
          validate_product r.1.mpn r.1.lcsc_code r.1.manufacturer = true :=
        addRows_rows_pred keyC _ _ page seen rows 0 hrows
          (extract_claude_validated (tm html))
      by_cases hcnt :
          (addRows keyC (extract_products_from_text_claude (tm html)) page seen rows 0).2.2 = 0
      · rw [if_pos hcnt]
        exact hnew
      · rw [if_neg hcnt]
        exact ih (page + 1) _ _ 0 _ _ _ hnew

theorem claudeLoop_log_mono (http : Nat → HttpResult)
    (tm : String → List (String × String × String × String)) :
    ∀ (fuel page : Nat) (seen : List (String × String)) (rows : List (ProductC × Nat))
      (cons : Nat) (log : List Nat) (stats : List (Nat × Nat)) (trace : List (List ProductC)),
      ∀ m ∈ log, m ∈ (claudeLoop http tm fuel page seen rows cons log stats trace).log := by
  intro fuel
  induction fuel with
  | zero =>
    intro page seen rows cons log stats trace m hm
    simpa [claudeLoop] using hm
  | succ fuel ih =>
    intro page seen rows cons log stats trace m hm
    have hm2 : m ∈ log ++ [page] := List.mem_append_left _ hm
    simp only [claudeLoop]
    cases hfe : fetch_html_opt (http page) with
    | none =>
      simp only
      by_cases hc : 2 ≤ cons + 1
      · rw [if_pos hc]
        exact hm2
      · rw [if_neg hc]
        exact ih (page + 1) seen rows (cons + 1) _ _ _ m hm2
    | some html =>
      simp only
      by_cases hcnt :
          (addRows keyC (extract_products_from_text_claude (tm html)) page seen rows 0).2.2 = 0
      · rw [if_pos hcnt]
        exact hm2
      · rw [if_neg hcnt]
        exact ih (page + 1) _ _ 0 _ _ _ m hm2

theorem claudeLoop_requests_current (http : Nat → HttpResult)
    (tm : String → List (String × String × String × String)) :
    ∀ (fuel page : Nat) (seen : List (String × String)) (rows : List (ProductC × Nat))
      (cons : Nat) (log : List Nat) (stats : List (Nat × Nat)) (trace : List (List ProductC)),
      1 ≤ fuel → page ∈ (claudeLoop http tm fuel page seen rows cons log stats trace).log := by
  intro fuel
  cases fuel with
  | zero => omega
  | succ fuel =>
    intro page seen rows cons log stats trace _
    have hm2 : page ∈ log ++ [page] := List.mem_append_right _ (List.mem_singleton.mpr rfl)
    simp only [claudeLoop]
    cases hfe : fetch_html_opt (http page) with
    | none =>
      simp only
      by_cases hc : 2 ≤ cons + 1
      · rw [if_pos hc]
        exact hm2
      · rw [if_neg hc]
        exact claudeLoop_log_mono http tm fuel (page + 1) seen rows (cons + 1) _ _ _ page hm2
    | some html =>
      simp only
      by_cases hcnt :
          (addRows keyC (extract_products_from_text_claude (tm html)) page seen rows 0).2.2 = 0
      · rw [if_pos hcnt]
        exact hm2
      · rw [if_neg hcnt]
        exact claudeLoop_log_mono http tm fuel (page + 1) _ _ 0 _ _ _ page hm2

theorem claudeLoop_abort (http : Nat → HttpResult)
    (tm : String → List (String × String × String × String)) (n : Nat)
    (hn : fetch_html_opt (http n) = none) (hn1 : fetch_html_opt (http (n + 1)) = none) :
    ∀ (fuel page : Nat) (seen : List (String × String)) (rows : List (ProductC × Nat))
      (cons : Nat) (log : List Nat) (stats : List (Nat × Nat)) (trace : List (List ProductC)),
      ((page ≤ n ∧ cons ≤ 1) ∨ (page = n + 1 ∧ 1 ≤ cons)) →
      (∀ m ∈ log, m ≤ n + 1) →
      ∀ m ∈ (claudeLoop http tm fuel page seen rows cons log stats trace).log, m ≤ n + 1 := by
  intro fuel
  induction fuel with
  | zero =>
    intro page seen rows cons log stats trace _ hlog
    simpa [claudeLoop] using hlog
  | succ fuel ih =>
    intro page seen rows cons log stats trace hinv hlog
    have hpage : page ≤ n + 1 := by
      rcases hinv with ⟨h, _⟩ | ⟨h, _⟩
      · omega
      · omega
    have hlog2 : ∀ m ∈ log ++ [page], m ≤ n + 1 := by
      intro m hm
      rcases List.mem_append.mp hm with hm | hm
      · exact hlog m hm
      · exact (List.mem_singleton.mp hm) ▸ hpage
    simp only [claudeLoop]
    cases hfe : fetch_html_opt (http page) with
    | none =>
      simp only
      by_cases hc : 2 ≤ cons + 1
      · rw [if_pos hc]
        exact hlog2
      · rw [if_neg hc]
        have hcons0 : cons = 0 := by omega
        rcases hinv with ⟨hpn, _⟩ | ⟨_, hc1⟩
        · refine ih (page + 1) seen rows (cons + 1) _ _ _ ?_ hlog2
          by_cases hlt : page < n
          · exact Or.inl ⟨by omega, by omega⟩
          · have : page = n := by omega
            exact Or.inr ⟨by omega, by omega⟩
        · omega
    | some html =>
      simp only
      have hleft : page ≤ n ∧ cons ≤ 1 := by
        rcases hinv with h | ⟨hp, _⟩
        · exact h
        · rw [hp] at hfe
          rw [hn1] at hfe
          cases hfe
      have hne : page ≠ n := by
        intro he
        rw [he, hn] at hfe
        cases hfe
      by_cases hcnt :
          (addRows keyC (extract_products_from_text_claude (tm html)) page seen rows 0).2.2 = 0
      · rw [if_pos hcnt]
        exact hlog2
      · rw [if_neg hcnt]
        refine ih (page + 1) _ _ 0 _ _ _ ?_ hlog2
        exact Or.inl ⟨by omega, by omega⟩

/-! ### Lemmas about the specs map -/

theorem alookup_none_iff (k : String) (specs : List (String × String)) :
    alookup k specs = none ↔ k ∉ specs.map Prod.fst := by
  induction specs with
  | nil => simp [alookup]
  | cons e rest ih =>
    rcases e with ⟨a, v⟩
    by_cases h : a = k
    · subst h
      simp [alookup]
    · simp only [alookup, List.map_cons, List.mem_cons]
      rw [if_neg h, ih]
      constructor
      · intro hk hor
        rcases hor with hor | hor
        · exact h hor.symm
        · exact hk hor
      · intro hk hmem
        exact hk (Or.inr hmem)

theorem alookup_append_some (k v : String) (s1 s2 : List (String × String))
    (h : alookup k s1 = some v) : alookup k (s1 ++ s2) = some v := by
  induction s1 with
  | nil => simp [alookup] at h
  | cons e rest ih =>
    rcases e with ⟨a, w⟩
    by_cases ha : a = k
    · simp [alookup, ha] at h ⊢
      exact h
    · simp [alookup, ha] at h ⊢
      exact ih h

theorem addParams_keys_nodup (ps : List ParamVO) :
    ∀ specs : List (String × String), (specs.map Prod.fst).Nodup →
      ((addParams specs ps).map Prod.fst).Nodup := by
  induction ps with
  | nil =>
    intro specs h
    simpa [addParams] using h
  | cons p rest ih =>
    intro specs h
    simp only [addParams]
    by_cases hb : pyStripS ((firstTruthy [p.paramNameEn, p.paramName]).getD "") = ""
        || pyStripS ((firstTruthy [p.paramValueEn, p.paramValue]).getD "") = ""
    · rw [if_pos hb]
      exact ih specs h
    · rw [if_neg hb]
      by_cases hk : (alookup (pyStripS ((firstTruthy [p.paramNameEn, p.paramName]).getD ""))
          specs).isSome
      · rw [if_pos hk]
        exact ih specs h
      · rw [if_neg hk]
        apply ih
        have hnone : alookup (pyStripS ((firstTruthy [p.paramNameEn, p.paramName]).getD ""))
            specs = none := by
          rcases ho : alookup (pyStripS ((firstTruthy [p.paramNameEn, p.paramName]).getD ""))
            specs with _ | v
          · rfl
          · rw [ho] at hk
            simp at hk
        have hfresh := (alookup_none_iff _ specs).mp hnone
        simp only [List.map_append, List.map_cons, List.map_nil]
        rw [List.nodup_append]
        refine ⟨h, by simp, ?_⟩
        intro x hx hx2
        simp at hx2
        exact hfresh (hx2 ▸ hx)

theorem addParams_preserves (ps : List ParamVO) :
    ∀ (specs : List (String × String)) (k v : String), alookup k specs = some v →
      alookup k (addParams specs ps) = some v := by
  induction ps with
  | nil =>
    intro specs k v h
    simpa [addParams] using h
  | cons p rest ih =>
    intro specs k v h
    simp only [addParams]
    by_cases hb : pyStripS ((firstTruthy [p.paramNameEn, p.paramName]).getD "") = ""
        || pyStripS ((firstTruthy [p.paramValueEn, p.paramValue]).getD "") = ""
    · rw [if_pos hb]
      exact ih specs k v h
    · rw [if_neg hb]
      by_cases hk : (alookup (pyStripS ((firstTruthy [p.paramNameEn, p.paramName]).getD ""))
          specs).isSome
      · rw [if_pos hk]
        exact ih specs k v h
      · rw [if_neg hk]
        exact ih _ k v (alookup_append_some k v specs _ h)

theorem addParams_skip_blank (specs : List (String × String)) (p : ParamVO) (ps : List ParamVO)
    (h : pyStripS ((firstTruthy [p.paramNameEn, p.paramName]).getD "") = ""
      ∨ pyStripS ((firstTruthy [p.paramValueEn, p.paramValue]).getD "") = "") :
    addParams specs (p :: ps) = addParams specs ps := by
  rcases h with h | h <;> simp [addParams, h]

theorem build_specs_base_keys_nodup (item : Item) :
    ((build_specs_base item).map Prod.fst).Nodup := by
  unfold build_specs_base
  rcases firstTruthy [item.wmCatalogNameEn, item.firstWmCatalogNameEn,
      item.secondWmCatalogNameEn, item.thirdWmCatalogNameEn] with _ | c <;>
    rcases item.brandNameEn with _ | m <;>
    rcases firstTruthy [item.encapStandard, item.encapEn, item.encap, item.packageEn]
      with _ | p <;>
    simp only [] <;>
    first
      | (by_cases hm : m = "" <;> simp [hm])
      | simp

/-! ### Lemmas about category discovery -/

theorem discoverStepRws_range (idStart idEnd : Nat) (acc : List CatDesc) (a : Anchor)
    (h : ∀ c ∈ acc, idStart ≤ c.id ∧ c.id ≤ idEnd) :
    ∀ c ∈ discoverStepRws idStart idEnd acc a, idStart ≤ c.id ∧ c.id ≤ idEnd := by
  intro c hc
  unfold discoverStepRws at hc
  rcases hs : searchCatIdAux a.href.toList with _ | cid
  · rw [hs] at hc
    exact h c hc
  · rw [hs] at hc
    simp only at hc
    by_cases hr : (decide (cid < idStart) || decide (idEnd < cid)) = true
    · rw [if_pos hr] at hc
      exact h c hc
    · rw [if_neg hr] at hc
      have hrange : idStart ≤ cid ∧ cid ≤ idEnd := by
        simp only [Bool.or_eq_true, decide_eq_true_eq] at hr
        omega
      by_cases hn : pyStripS a.text = ""
      · rw [if_pos hn] at hc
        exact h c hc
      · rw [if_neg hn] at hc
        by_cases hv : containsSubstr "View All".toList (pyStripS a.text).toList = true
        · rw [if_pos hv] at hc
          exact h c hc
        · rw [if_neg hv] at hc
          by_cases hd : acc.any (fun x => x.id = cid) = true
          · rw [if_pos hd] at hc
            exact h c hc
          · rw [if_neg hd] at hc
            rcases List.mem_append.mp hc with hc | hc
            · exact h c hc
            · rw [List.mem_singleton.mp hc]
              exact hrange

theorem foldl_discoverStepRws_range (idStart idEnd : Nat) (anchors : List Anchor) :
    ∀ acc : List CatDesc, (∀ c ∈ acc, idStart ≤ c.id ∧ c.id ≤ idEnd) →
      ∀ c ∈ anchors.foldl (discoverStepRws idStart idEnd) acc,
        idStart ≤ c.id ∧ c.id ≤ idEnd := by
  induction anchors with
  | nil =>
    intro acc h
    simpa using h
  | cons a rest ih =>
    intro acc h
    simp only [List.foldl_cons]
    exact ih _ (discoverStepRws_range idStart idEnd acc a h)

theorem claudeLoop_step_none (http : Nat → HttpResult)
    (tm : String → List (String × String × String × String))
    (fuel page : Nat) (seen : List (String × String)) (rows : List (ProductC × Nat))
    (cons : Nat) (log : List Nat) (stats : List (Nat × Nat)) (trace : List (List ProductC))
    (h : fetch_html_opt (http page) = none) (hc : ¬ 2 ≤ cons + 1) :
    claudeLoop http tm (fuel + 1) page seen rows cons log stats trace
      = claudeLoop http tm fuel (page + 1) seen rows (cons + 1) (log ++ [page]) stats trace := by
  simp only [claudeLoop, h]
  rw [if_neg hc]

theorem claudeLoop_step_some (http : Nat → HttpResult)
    (tm : String → List (String × String × String × String))
    (fuel page : Nat) (seen : List (String × String)) (rows : List (ProductC × Nat))
    (cons : Nat) (log : List Nat) (stats : List (Nat × Nat)) (trace : List (List ProductC))
    (html : String) (h : fetch_html_opt (http page) = some html)
    (hcnt : (addRows keyC (extract_products_from_text_claude (tm html)) page seen rows 0).2.2
      ≠ 0) :
    claudeLoop http tm (fuel + 1) page seen rows cons log stats trace
      = claudeLoop http tm fuel (page + 1)
          (addRows keyC (extract_products_from_text_claude (tm html)) page seen rows 0).1
          (addRows keyC (extract_products_from_text_claude (tm html)) page seen rows 0).2.1
          0 (log ++ [page])
          (stats ++ [(page,
            (addRows keyC (extract_products_from_text_claude (tm html)) page seen rows 0).2.2)])
          (trace ++ [extract_products_from_text_claude (tm html)]) := by
  simp only [claudeLoop, h]
  rw [if_neg hcnt]

theorem rows_key_nodup_of_eq {α : Type} (key : α → String × String) (rows : List (α × Nat))
    (X : List α) (h : rows.map Prod.fst = dedupFirst key X) :
    (rows.map (fun r => key r.1)).Nodup := by
  have h2 : rows.map (fun r => key r.1) = (dedupFirst key X).map key := by
    rw [← h, List.map_map]
    rfl
  rw [h2]
  exact dedupFirst_keys_nodup key X

/-! ### Claim theorems -/

/-- C8: in the specs map built from a raw item, every key maps to exactly
one value (the key list has no duplicates), parameter entries with a blank
name or blank value are skipped, and keys already present — in particular
the reserved Category, Manufacturer and Package assignments — are never
overwritten by entries of the auxiliary parameter list. -/
theorem c8_specs_map (item : Item) :
    ((build_specs_from_item item).map Prod.fst).Nodup
      ∧ (∀ k v : String, alookup k (build_specs_base item) = some v →
          alookup k (build_specs_from_item item) = some v)
      ∧ (∀ (specs : List (String × String)) (p : ParamVO) (ps : List ParamVO),
          (pyStripS ((firstTruthy [p.paramNameEn, p.paramName]).getD "") = ""
            ∨ pyStripS ((firstTruthy [p.paramValueEn, p.paramValue]).getD "") = "") →
          addParams specs (p :: ps) = addParams specs ps) := by
  refine ⟨?_, ?_, ?_⟩
  · exact addParams_keys_nodup _ _ (build_specs_base_keys_nodup item)
  · intro k v h
    exact addParams_preserves _ _ k v h
  · intro specs p ps h
    exact addParams_skip_blank specs p ps h

/-- Witness for C8: on itemSpecs the parameter entry named Manufacturer
does not overwrite the reserved binding, the blank-name entry is dropped,
and the fresh Width key lands with a unique key list. -/
theorem c8_specs_map_witness :
    alookup "Manufacturer" (build_specs_from_item itemSpecs) = some "TI"
      ∧ build_specs_from_item itemSpecs = [("Manufacturer", "TI"), ("Width", "5mm")] :=
  ⟨(c8_specs_map itemSpecs).2.1 "Manufacturer" "TI" (by decide), by decide⟩

/-- C9: when category discovery is restricted to an inclusive id range,
every category descriptor in the discovery output of rangeWithSpecs.py has
an id inside the range, and every category that range.py goes on to scrape
(its filtered discovery list) has an id inside the range. -/
theorem c9_discovery_id_range (idStart idEnd : Nat) :
    (∀ (html : Option String) (anchorsOf : String → List Anchor),
      ∀ c ∈ get_all_category_urls_rws idStart idEnd html anchorsOf,
        idStart ≤ c.id ∧ c.id ≤ idEnd)
      ∧ (∀ cats : List CatDesc, ∀ c ∈ filterCatRange idStart idEnd cats,
          idStart ≤ c.id ∧ c.id ≤ idEnd) := by
  constructor
  · intro html anchorsOf c hc
    rcases html with _ | h
    · simp [get_all_category_urls_rws] at hc
    · by_cases hh : h = ""
      · simp [get_all_category_urls_rws, hh] at hc
      · have hc2 : c ∈ List.foldl (discoverStepRws idStart idEnd) [] (anchorsOf h) := by
          simpa [get_all_category_urls_rws, hh] using hc
        exact foldl_discoverStepRws_range idStart idEnd (anchorsOf h) [] (by simp) c hc2
  · intro cats c hc
    have := List.mem_filter.mp hc
    simpa using this.2

/-- Witness for C9: a discovery pass over one in-range link keeps it, and
the theorem bounds its id. -/
theorem c9_discovery_id_range_witness :
    (⟨1250, "https://www.lcsc.com/category/1250.html", "Resistors"⟩ : CatDesc)
        ∈ get_all_category_urls_rws 1201 1400 (some "page") anchorsOne
      ∧ 1201 ≤ (1250 : Nat) ∧ (1250 : Nat) ≤ 1400 :=
  have hmem : (⟨1250, "https://www.lcsc.com/category/1250.html", "Resistors"⟩ : CatDesc)
      ∈ get_all_category_urls_rws 1201 1400 (some "page") anchorsOne := by decide
  ⟨hmem, (c9_discovery_id_range 1201 1400).1 (some "page") anchorsOne _ hmem⟩

/-- C10: for the structured-source category scrape, if page 1 yields zero
validated products — including when its fetch soft-fails — the scrape
returns an empty result and only page 1 is ever requested, whatever page
count the service would report. -/
theorem c10_empty_first_page (http : Nat → Nat → ApiResponse) (dd : String → String)
    (url : String) (cap : Int) (cid : Nat)
    (hparse : parse_catalog_id_from_url url = some cid)
    (hempty : (fetch_products_page_api (http cid 1) dd).1 = []) :
    (scrape_lcsc_category_S http dd url cap).rows = []
      ∧ (scrape_lcsc_category_S http dd url cap).log = [1] := by
  unfold scrape_lcsc_category_S
  rw [hparse]
  simp [hempty]

/-- Witness for C10: a service that reports five total pages but an empty
first data list produces an empty scrape that requested only page 1. -/
theorem c10_empty_first_page_witness :
    (scrape_lcsc_category_S httpEmptyFirst (fun _ => "") urlCat874 0).rows = []
      ∧ (scrape_lcsc_category_S httpEmptyFirst (fun _ => "") urlCat874 0).log = [1] :=
  c10_empty_first_page httpEmptyFirst (fun _ => "") urlCat874 0 874 (by decide) (by decide)

/-- C6 counterexample: in main.py a transport failure during a page fetch
is not soft — the unguarded fetch_html raises and the whole scrape
propagates the exception to its caller instead of continuing with an
empty page. -/
theorem c6_counterexample :
    fetch_html_main HttpResult.timeout = .error HttpErr.timeout
      ∧ scrape_lcsc_category_main (fun _ => HttpResult.timeout) (fun _ => []) 5
          = .error HttpErr.timeout :=
  ⟨rfl, rfl⟩

/-- C6 (amended): transport and decode failures are soft in the structured
page fetch (empty page, no page count), in the guarded fetch_html shared
by single.py, range.py, rangeWithSpecs.py, chatgpt_v2.py and claude.py
(None), and in the per-record detail fallback (empty description) — but in
main.py the page fetch has no handler, so a transport failure propagates
to the caller and aborts the harvest. -/
theorem c6_soft_failures_amended :
    (∀ dd : String → String,
      fetch_products_page_api .timeout dd = ([], none)
        ∧ fetch_products_page_api .requestError dd = ([], none)
        ∧ fetch_products_page_api .badJson dd = ([], none))
      ∧ (fetch_html_opt .timeout = none ∧ fetch_html_opt .requestError = none)
      ∧ (∀ (dm : String → Option String) (code : String),
          fetch_description_from_detail none dm code = "")
      ∧ (fetch_html_main .timeout = .error .timeout
          ∧ fetch_html_main .requestError = .error .requestError)
      ∧ (∀ (http : Nat → HttpResult) (tm : String → List (String × String × String))
          (maxp : Nat), http 1 = .timeout → 1 ≤ maxp →
          scrape_lcsc_category_main http tm maxp = .error .timeout) := by
  refine ⟨fun dd => ⟨rfl, rfl, rfl⟩, ⟨rfl, rfl⟩, ?_, ⟨rfl, rfl⟩, ?_⟩
  · intro dm code
    by_cases h : code = "" <;> simp [fetch_description_from_detail, h]
  · intro http tm maxp h1 hmax
    rcases maxp with _ | k
    · omega
    · simp [scrape_lcsc_category_main, mainLoop, h1, fetch_html_main]

/-- Witness for C6: a run whose every page fetch times out ends in the
propagated timeout exception. -/
theorem c6_soft_failures_witness :
    scrape_lcsc_category_main (fun _ => HttpResult.timeout) (fun _ => ([] : List (String × String × String))) 7
      = .error HttpErr.timeout :=
  c6_soft_failures_amended.2.2.2.2 (fun _ => HttpResult.timeout) (fun _ => []) 7 rfl (by omega)

/-- C3: within one scrape_lcsc_category call (structured source single.py
and text source main.py), the emitted row sequence is exactly the
candidate sequence filtered to the first occurrence of each
(mpn, lcsc_code) key — repeats are dropped silently, first occurrence
wins, insertion order is preserved — and no two emitted rows share a
key. -/
theorem c3_dedup_first_occurrence :
    (∀ (http : Nat → Nat → ApiResponse) (dd : String → String) (url : String) (cap : Int),
      (scrape_lcsc_category_S http dd url cap).rows.map Prod.fst
          = dedupFirst keyS (scrape_lcsc_category_S http dd url cap).trace.flatten
        ∧ ((scrape_lcsc_category_S http dd url cap).rows.map (fun r => keyS r.1)).Nodup)
      ∧ (∀ (http : Nat → HttpResult) (tm : String → List (String × String × String))
          (maxp : Nat) (res : TextScrapeResult ProductT),
          scrape_lcsc_category_main http tm maxp = .ok res →
          res.rows.map Prod.fst = dedupFirst keyT res.trace.flatten
            ∧ (res.rows.map (fun r => keyT r.1)).Nodup) := by
  constructor
  · intro http dd url cap
    have key_eq : (scrape_lcsc_category_S http dd url cap).rows.map Prod.fst
        = dedupFirst keyS (scrape_lcsc_category_S http dd url cap).trace.flatten := by
      unfold scrape_lcsc_category_S
      rcases parse_catalog_id_from_url url with _ | cid
      · simp [dedupFirst, dedupSeen]
      · by_cases hp1 : (fetch_products_page_api (http cid 1) dd).1 = []
        · simp [hp1, dedupFirst, dedupSeen]
        · simp only [hp1, ite_false]
          apply scrapeLoopS_rows_trace
          · rw [addRows_seen]
            simp [dedupFirst]
          · rw [addRows_rows]
            simp [dedupFirst, Function.comp_def]
    exact ⟨key_eq, rows_key_nodup_of_eq keyS _ _ key_eq⟩
  · intro http tm maxp res hres
    have key_eq : res.rows.map Prod.fst = dedupFirst keyT res.trace.flatten :=
      mainLoop_rows_trace http tm maxp 1 [] [] [] [] [] res
        (by simp [dedupFirst, dedupSeen]) (by simp [dedupFirst, dedupSeen]) hres
    exact ⟨key_eq, rows_key_nodup_of_eq keyT _ _ key_eq⟩

/-- Witness for C3: the main.py scrape over a page that repeats one
candidate emits it once, in order, with no duplicate key. -/
theorem c3_dedup_witness :
    resultT0.rows.map Prod.fst = dedupFirst keyT resultT0.trace.flatten
      ∧ (resultT0.rows.map (fun r => keyT r.1)).Nodup :=
  c3_dedup_first_occurrence.2 httpAlwaysOk tmOneMatch3 5 resultT0 rfl

/-- C5: for the structured-source scrape, when no early stop fires the
pages requested are exactly 1 .. min(cap, totalPages) for a positive
configured cap and 1 .. totalPages otherwise, totalPages defaulting to 1
when the response carries none. -/
theorem c5_effective_page_count (http : Nat → Nat → ApiResponse) (dd : String → String)
    (url : String) (cap : Int) (cid : Nat)
    (hparse : parse_catalog_id_from_url url = some cid)
    (h1 : (fetch_products_page_api (http cid 1) dd).1 ≠ [])
    (htot : 1 ≤ ((fetch_products_page_api (http cid 1) dd).2.getD 1))
    (hall : ∀ q : Nat, 2 ≤ q →
      (q : Int) ≤ (if 0 < cap
        then min ((fetch_products_page_api (http cid 1) dd).2.getD 1) cap
        else (fetch_products_page_api (http cid 1) dd).2.getD 1) →
      (fetch_products_page_api (http cid q) dd).1 ≠ []) :
    (scrape_lcsc_category_S http dd url cap).log
      = List.range' 1 (if 0 < cap
          then min ((fetch_products_page_api (http cid 1) dd).2.getD 1) cap
          else (fetch_products_page_api (http cid 1) dd).2.getD 1).toNat := by
  have hN : 1 ≤ (if 0 < cap
      then min ((fetch_products_page_api (http cid 1) dd).2.getD 1) cap
      else (fetch_products_page_api (http cid 1) dd).2.getD 1) := by
    by_cases hcap : 0 < cap
    · simp only [hcap, ite_true]
      omega
    · simpa [hcap] using htot
  unfold scrape_lcsc_category_S
  rw [hparse]
  simp only [h1, ite_false]
  rw [scrapeLoopS_log_all_nonempty http dd cid _ 2 _ _ _ _ ?_]
  · rw [show (if 0 < cap
        then min ((fetch_products_page_api (http cid 1) dd).2.getD 1) cap
        else (fetch_products_page_api (http cid 1) dd).2.getD 1).toNat
        = ((if 0 < cap
          then min ((fetch_products_page_api (http cid 1) dd).2.getD 1) cap
          else (fetch_products_page_api (http cid 1) dd).2.getD 1) - 1).toNat + 1 from by omega]
    rw [List.range'_succ]
    simp
  · intro q h2 hlt
    apply hall q h2
    omega

/-- Witness for C5: totalPages 3 with a configured cap of 2 fetches
exactly pages 1 and 2; page 3 is never requested. -/
theorem c5_page_count_witness :
    (scrape_lcsc_category_S httpThreePages (fun _ => "") urlCat874 2).log = [1, 2] := by
  have hbound : (if 0 < (2 : Int)
      then min ((fetch_products_page_api (httpThreePages 874 1) (fun _ => "")).2.getD 1) 2
      else (fetch_products_page_api (httpThreePages 874 1) (fun _ => "")).2.getD 1) = 2 := by
    decide
  have hall : ∀ q : Nat, 2 ≤ q →
      (q : Int) ≤ (if 0 < (2 : Int)
        then min ((fetch_products_page_api (httpThreePages 874 1) (fun _ => "")).2.getD 1) 2
        else (fetch_products_page_api (httpThreePages 874 1) (fun _ => "")).2.getD 1) →
      (fetch_products_page_api (httpThreePages 874 q) (fun _ => "")).1 ≠ [] := by
    intro q h2 hle
    rw [hbound] at hle
    have hq : q = 2 := by omega
    subst hq
    decide
  have h := c5_effective_page_count httpThreePages (fun _ => "") urlCat874 2 874
    (by decide) (by decide) (by decide) hall
  rw [h, hbound]
  decide

/-- C1 counterexample: for the structured scrape of single.py, a page
whose validated records are all duplicates does not end pagination — the
service repeats page 1's record on page 2, so page 2 adds zero new rows
(no emitted row carries page 2), yet page 3 is still requested. -/
theorem c1_counterexample :
    (scrape_lcsc_category_S httpDupPage2 (fun _ => "") urlCat874 0).rows.map Prod.snd = [1, 3]
      ∧ (scrape_lcsc_category_S httpDupPage2 (fun _ => "") urlCat874 0).log = [1, 2, 3] := by
  decide

/-- C1 (amended): a page yielding zero new validated records ends
pagination immediately in the text-source scrapes (main.py and claude.py:
once some processed page n contributed zero new records, no page beyond n
is requested); in the structured-source scrape only a page with zero
validated records at all ends pagination early — after such a page n, no
page beyond n is requested. -/
theorem c1_early_stop_amended :
    (∀ (http : Nat → HttpResult) (tm : String → List (String × String × String))
      (maxp : Nat) (res : TextScrapeResult ProductT) (n m : Nat),
      scrape_lcsc_category_main http tm maxp = .ok res →
      (n, 0) ∈ res.stats → m ∈ res.log → m ≤ n)
      ∧ (∀ (http : Nat → HttpResult) (tm : String → List (String × String × String × String))
          (maxp n m : Nat),
          (n, 0) ∈ (scrape_lcsc_category_claude http tm maxp).stats →
          m ∈ (scrape_lcsc_category_claude http tm maxp).log → m ≤ n)
      ∧ (∀ (http : Nat → Nat → ApiResponse) (dd : String → String) (url : String) (cap : Int)
          (cid n : Nat), parse_catalog_id_from_url url = some cid → 1 ≤ n →
          (fetch_products_page_api (http cid n) dd).1 = [] →
          ∀ m ∈ (scrape_lcsc_category_S http dd url cap).log, m ≤ n) := by
  refine ⟨?_, ?_, ?_⟩
  · intro http tm maxp res n m hres hn hm
    exact mainLoop_stats_stop http tm maxp 1 [] [] [] [] [] res
      (by simp) (by simp) (by simp) hres n m hn hm
  · intro http tm maxp n m hn hm
    exact claudeLoop_stats_stop http tm maxp 1 [] [] 0 [] [] []
      (by simp) (by simp) (by simp) n m hn hm
  · intro http dd url cap cid n hparse h1n hF
    unfold scrape_lcsc_category_S
    rw [hparse]
    by_cases hp1 : (fetch_products_page_api (http cid 1) dd).1 = []
    · intro m hm
      simp only [hp1, ite_true] at hm
      simp at hm
      omega
    · have hn2 : 2 ≤ n := by
        rcases Nat.lt_or_ge n 2 with h | h
        · have : n = 1 := by omega
          rw [this] at hF
          exact absurd hF hp1
        · exact h
      simp only [hp1, ite_false]
      refine scrapeLoopS_log_bounded http dd cid n hF _ 2 _ _ [1] _ (by omega) ?_
      intro m hm
      have : m = 1 := List.mem_singleton.mp hm
      omega

/-- Witness for C1: in the claude.py scrape a second page repeating the
first page's record yields zero new rows, and no third page is
requested. -/
theorem c1_early_stop_witness :
    (2, 0) ∈ (scrape_lcsc_category_claude httpAlwaysOk tmOneMatch 5).stats
      ∧ 3 ∉ (scrape_lcsc_category_claude httpAlwaysOk tmOneMatch 5).log :=
  ⟨by decide, fun h =>
    absurd (c1_early_stop_amended.2.1 httpAlwaysOk tmOneMatch 5 2 3 (by decide) h)
      (by decide)⟩

/-- C2: every row emitted by a scrape satisfies the validator: for the
structured scrape by the validate_product filter inside the page fetch;
for claude.py by the filter inside its extractor; and for main.py because
each capture tuple of its regex lies in the groups' languages, which force
a nonempty mpn of length at least 2, a code of shape C plus four or more
digits, and a nonempty manufacturer. -/
theorem c2_validator_holds :
    (∀ (http : Nat → Nat → ApiResponse) (dd : String → String) (url : String) (cap : Int),
      ∀ r ∈ (scrape_lcsc_category_S http dd url cap).rows,
        validate_product r.1.mpn r.1.lcsc_code r.1.manufacturer = true)
      ∧ (∀ (http : Nat → HttpResult) (tm : String → List (String × String × String))
          (maxp : Nat) (res : TextScrapeResult ProductT),
          (∀ s, ∀ m ∈ tm s, matchLang3 m = true) →
          scrape_lcsc_category_main http tm maxp = .ok res →
          ∀ r ∈ res.rows, validate_product r.1.mpn r.1.lcsc_code r.1.manufacturer = true)
      ∧ (∀ (http : Nat → HttpResult) (tm : String → List (String × String × String × String))
          (maxp : Nat),
          ∀ r ∈ (scrape_lcsc_category_claude http tm maxp).rows,
            validate_product r.1.mpn r.1.lcsc_code r.1.manufacturer = true) := by
  refine ⟨?_, ?_, ?_⟩
  · intro http dd url cap
    unfold scrape_lcsc_category_S
    rcases parse_catalog_id_from_url url with _ | cid
    · simp
    · by_cases hp1 : (fetch_products_page_api (http cid 1) dd).1 = []
      · simp [hp1]
      · simp only [hp1, ite_false]
        apply scrapeLoopS_rows_validated
        exact addRows_rows_pred keyS _ _ 1 [] [] 0 (by simp)
          (fetch_products_page_api_validated (http cid 1) dd)
  · intro http tm maxp res hlang hres
    exact mainLoop_rows_validated http tm hlang maxp 1 [] [] [] [] [] res (by simp) hres
  · intro http tm maxp
    exact claudeLoop_rows_validated http tm maxp 1 [] [] 0 [] [] [] (by simp)

/-- Witness for C2: the row the structured scrape emits from itemA is
validated. -/
theorem c2_validator_witness :
    (productA, 1) ∈ (scrape_lcsc_category_S httpDupPage2 (fun _ => "") urlCat874 0).rows
      ∧ validate_product productA.mpn productA.lcsc_code productA.manufacturer = true :=
  ⟨by decide,
    c2_validator_holds.1 httpDupPage2 (fun _ => "") urlCat874 0 (productA, 1) (by decide)⟩

/-- C7: in the claude.py text-source scrape, two consecutive unfetchable
pages n and n+1 abort the category — no page beyond n+1 is ever
requested — while a single failed fetch followed by a successful page
with new records resets the failure count, so a later isolated failure
still does not abort: after fail, success, fail, page four is requested. -/
theorem c7_consecutive_failures :
    (∀ (http : Nat → HttpResult) (tm : String → List (String × String × String × String))
      (maxp n : Nat), 1 ≤ n →
      fetch_html_opt (http n) = none → fetch_html_opt (http (n + 1)) = none →
      ∀ m ∈ (scrape_lcsc_category_claude http tm maxp).log, m ≤ n + 1)
      ∧ (∀ (http : Nat → HttpResult) (tm : String → List (String × String × String × String))
          (maxp : Nat) (h2 : String),
          fetch_html_opt (http 1) = none → http 2 = .okResp h2 →
          extract_products_from_text_claude (tm h2) ≠ [] →
          fetch_html_opt (http 3) = none → 4 ≤ maxp →
          4 ∈ (scrape_lcsc_category_claude http tm maxp).log) := by
  constructor
  · intro http tm maxp n hn1 hn hn1f
    exact claudeLoop_abort http tm n hn hn1f maxp 1 [] [] 0 [] [] []
      (Or.inl ⟨hn1, by omega⟩) (by simp)
  · intro http tm maxp h2 hf1 hok2 hne2 hf3 hmax
    obtain ⟨k, rfl⟩ : ∃ k, maxp = k + 4 := ⟨maxp - 4, by omega⟩
    unfold scrape_lcsc_category_claude
    have hfe2 : fetch_html_opt (http 2) = some h2 := by
      rw [hok2]
      rfl
    rcases hx : extract_products_from_text_claude (tm h2) with _ | ⟨p, rest⟩
    · exact absurd hx hne2
    · have hcnt : (addRows keyC (extract_products_from_text_claude (tm h2)) 2 [] [] 0).2.2
          ≠ 0 := by
        rw [hx]
        exact addRows_cnt_pos keyC p rest 2 []
      have e1 : claudeLoop http tm (k + 4) 1 [] [] 0 [] [] []
          = claudeLoop http tm (k + 3) 2 [] [] 1 [1] [] [] :=
        claudeLoop_step_none http tm (k + 3) 1 [] [] 0 [] [] [] hf1 (by omega)
      have e2 : claudeLoop http tm (k + 3) 2 [] [] 1 [1] [] []
          = claudeLoop http tm (k + 2) 3
              (addRows keyC (extract_products_from_text_claude (tm h2)) 2 [] [] 0).1
              (addRows keyC (extract_products_from_text_claude (tm h2)) 2 [] [] 0).2.1
              0 [1, 2]
              [(2, (addRows keyC (extract_products_from_text_claude (tm h2)) 2 [] [] 0).2.2)]
              [extract_products_from_text_claude (tm h2)] :=
        claudeLoop_step_some http tm (k + 2) 2 [] [] 1 [1] [] [] h2 hfe2 hcnt
      have e3 : claudeLoop http tm (k + 2) 3
              (addRows keyC (extract_products_from_text_claude (tm h2)) 2 [] [] 0).1
              (addRows keyC (extract_products_from_text_claude (tm h2)) 2 [] [] 0).2.1
              0 [1, 2]
              [(2, (addRows keyC (extract_products_from_text_claude (tm h2)) 2 [] [] 0).2.2)]
              [extract_products_from_text_claude (tm h2)]
          = claudeLoop http tm (k + 1) 4
              (addRows keyC (extract_products_from_text_claude (tm h2)) 2 [] [] 0).1
              (addRows keyC (extract_products_from_text_claude (tm h2)) 2 [] [] 0).2.1
              1 [1, 2, 3]
              [(2, (addRows keyC (extract_products_from_text_claude (tm h2)) 2 [] [] 0).2.2)]
              [extract_products_from_text_claude (tm h2)] :=
        claudeLoop_step_none http tm (k + 1) 3 _ _ 0 [1, 2] _ _ hf3 (by omega)
      rw [e1, e2, e3]
      exact claudeLoop_requests_current http tm (k + 1) 4 _ _ 1 _ _ _ (by omega)

/-- Witness for C7: with fetch failures on pages 1 and 2 the scrape never
requests page 3; with failures on pages 1 and 3 only, the reset after the
successful page 2 keeps the scrape alive and page 4 is requested. -/
theorem c7_consecutive_failures_witness :
    3 ∉ (scrape_lcsc_category_claude httpFailTwice tmOneMatch 5).log
      ∧ 4 ∈ (scrape_lcsc_category_claude httpFailAlternate tmOneMatch 9).log :=
  ⟨fun h =>
    absurd (c7_consecutive_failures.1 httpFailTwice tmOneMatch 5 1 (by omega)
      (by decide) (by decide) 3 h) (by omega),
    c7_consecutive_failures.2 httpFailAlternate tmOneMatch 9 "pg"
      (by decide) rfl (by decide) (by decide) (by omega)⟩

/-! ### Lemmas about description cleaning -/

theorem cutAtFirst_prefix (p : List Char → Bool) (l : List Char) :
    ∃ r, l = cutAtFirst p l ++ r := by
  induction l with
  | nil => exact ⟨[], rfl⟩
  | cons c rest ih =>
    by_cases h : p (c :: rest)
    · exact ⟨c :: rest, by simp [cutAtFirst, h]⟩
    · rcases ih with ⟨r, hr⟩
      exact ⟨r, by simp [cutAtFirst, h]; exact hr⟩

theorem pyWordsAux_mem (l : List Char) :
    ∀ acc : List Char, (∀ c ∈ acc, py_isSpace c = false) →
      ∀ w ∈ pyWordsAux l acc, w ≠ [] ∧ ∀ c ∈ w, py_isSpace c = false := by
  induction l with
  | nil =>
    intro acc hacc w hw
    by_cases he : acc.isEmpty
    · simp [pyWordsAux, he] at hw
    · simp only [pyWordsAux, he, ite_false] at hw
      rw [List.mem_singleton.mp hw]
      constructor
      · simp only [ne_eq, List.reverse_eq_nil_iff]
        intro h2
        rw [h2] at he
        simp at he
      · intro c hc
        exact hacc c (List.mem_reverse.mp hc)
  | cons c rest ih =>
    intro acc hacc w hw
    by_cases hsp : py_isSpace c
    · by_cases he : acc.isEmpty
      · rw [pyWordsAux, if_pos hsp, if_pos he] at hw
        exact ih [] (by simp) w hw
      · rw [pyWordsAux, if_pos hsp, if_neg he] at hw
        rcases List.mem_cons.mp hw with hw | hw
        · subst hw
          constructor
          · simp only [ne_eq, List.reverse_eq_nil_iff]
            intro h2
            rw [h2] at he
            simp at he
          · intro d hd
            exact hacc d (List.mem_reverse.mp hd)
        · exact ih [] (by simp) w hw
    · rw [pyWordsAux, if_neg hsp] at hw
      refine ih (c :: acc) ?_ w hw
      intro d hd
      rcases List.mem_cons.mp hd with hd | hd
      · subst hd
        simpa using hsp
      · exact hacc d hd

theorem joinWords_head (ws : List (List Char))
    (h : ∀ w ∈ ws, w ≠ [] ∧ ∀ c ∈ w, py_isSpace c = false) :
    ∀ c, (joinWords ws).head? = some c → py_isSpace c = false := by
  induction ws with
  | nil => simp [joinWords]
  | cons w ws ih =>
    intro c hc
    rcases ws with _ | ⟨w2, ws2⟩
    · rw [joinWords] at hc
      have hw := h w (by simp)
      exact hw.2 c (List.mem_of_mem_head? hc)
    · have hj : joinWords (w :: w2 :: ws2) = w ++ ' ' :: joinWords (w2 :: ws2) := rfl
      rw [hj] at hc
      have hw := h w (by simp)
      rcases hx : w with _ | ⟨d, ds⟩
      · exact absurd hx hw.1
      · rw [hx] at hc
        simp only [List.cons_append, List.head?_cons, Option.some_inj] at hc
        rw [← hc]
        refine hw.2 d ?_
        rw [hx]
        exact List.mem_cons_self _ _

theorem joinWords_space_mem (ws : List (List Char))
    (h : ∀ w ∈ ws, ∀ c ∈ w, py_isSpace c = false) :
    ∀ c ∈ joinWords ws, py_isSpace c = true → c = ' ' := by
  induction ws with
  | nil => simp [joinWords]
  | cons w ws ih =>
    intro c hc hsp
    rcases ws with _ | ⟨w2, ws2⟩
    · rw [joinWords] at hc
      rw [h w (by simp) c hc] at hsp
      cases hsp
    · have hj : joinWords (w :: w2 :: ws2) = w ++ ' ' :: joinWords (w2 :: ws2) := rfl
      rw [hj] at hc
      rcases List.mem_append.mp hc with hc | hc
      · rw [h w (by simp) c hc] at hsp
        cases hsp
      · rcases List.mem_cons.mp hc with hc | hc
        · exact hc
        · exact ih (fun v hv => h v (List.mem_cons_of_mem _ hv)) c hc hsp

theorem collapseWs_head (l : List Char) :
    ∀ c, (collapseWs l).head? = some c → py_isSpace c = false :=
  joinWords_head (pyWordsAux l []) (pyWordsAux_mem l [] (by simp))

theorem collapseWs_space_mem (l : List Char) :
    ∀ c ∈ collapseWs l, py_isSpace c = true → c = ' ' :=
  joinWords_space_mem (pyWordsAux l [])
    (fun w hw => (pyWordsAux_mem l [] (by simp) w hw).2)

theorem normalizeDesc_prefix (s : String) :
    ∃ r, collapseWs s.toList = normalizeDesc s ++ r := by
  rcases cutAtFirst_prefix dollarNoiseAt (collapseWs s.toList) with ⟨r1, h1⟩
  rcases cutAtFirst_prefix usDollarNoiseAt (cutAtFirst dollarNoiseAt (collapseWs s.toList))
    with ⟨r2, h2⟩
  rcases cutAtFirst_prefix pcsNoiseAt
      (cutAtFirst usDollarNoiseAt (cutAtFirst dollarNoiseAt (collapseWs s.toList)))
    with ⟨r3, h3⟩
  refine ⟨r3 ++ r2 ++ r1, ?_⟩
  rw [normalizeDesc]
  conv_lhs => rw [h1, h2, h3]
  simp [List.append_assoc]

theorem head?_append_of_ne_nil (t r : List Char) (h : t ≠ []) : (t ++ r).head? = t.head? := by
  cases t with
  | nil => exact absurd rfl h
  | cons c rest => simp

theorem normalizeDesc_head (s : String) :
    ∀ c, (normalizeDesc s).head? = some c → py_isSpace c = false := by
  intro c hc
  rcases normalizeDesc_prefix s with ⟨r, hr⟩
  have hne : normalizeDesc s ≠ [] := by
    intro he
    rw [he] at hc
    cases hc
  apply collapseWs_head s.toList c
  rw [hr, head?_append_of_ne_nil _ _ hne]
  exact hc

theorem normalizeDesc_space_mem (s : String) :
    ∀ c ∈ normalizeDesc s, py_isSpace c = true → c = ' ' := by
  intro c hc hsp
  rcases normalizeDesc_prefix s with ⟨r, hr⟩
  refine collapseWs_space_mem s.toList c ?_ hsp
  rw [hr]
  exact List.mem_append_left _ hc

theorem length_dropWhile_le_gen (p : Char → Bool) (l : List Char) :
    (l.dropWhile p).length ≤ l.length := by
  induction l with
  | nil => simp
  | cons c rest ih =>
    rw [List.dropWhile_cons]
    by_cases h : p c
    · rw [if_pos h]
      simp only [List.length_cons]
      omega
    · rw [if_neg h]

theorem pyStripChars_length_le (l : List Char) : (pyStripChars l).length ≤ l.length := by
  unfold pyStripChars
  calc ((l.dropWhile py_isSpace).reverse.dropWhile py_isSpace).reverse.length
      = ((l.dropWhile py_isSpace).reverse.dropWhile py_isSpace).length := by
        rw [List.length_reverse]
    _ ≤ (l.dropWhile py_isSpace).reverse.length := length_dropWhile_le_gen _ _
    _ = (l.dropWhile py_isSpace).length := by rw [List.length_reverse]
    _ ≤ l.length := length_dropWhile_le_gen _ _

theorem pyStripChars_noop (l : List Char)
    (h1 : ∀ c, l.head? = some c → py_isSpace c = false)
    (h2 : ∀ c, l.getLast? = some c → py_isSpace c = false) :
    pyStripChars l = l := by
  unfold pyStripChars
  have hd : l.dropWhile py_isSpace = l := by
    cases hl : l with
    | nil => simp
    | cons c rest =>
      rw [List.dropWhile_cons]
      have := h1 c (by rw [hl]; rfl)
      simp [this]
  rw [hd]
  have hd2 : l.reverse.dropWhile py_isSpace = l.reverse := by
    cases hl : l.reverse with
    | nil => simp
    | cons c rest =>
      rw [List.dropWhile_cons]
      have hlast : l.getLast? = some c := by
        rw [← List.head?_reverse, hl]
        rfl
      have := h2 c hlast
      simp [this]
  rw [hd2, List.reverse_reverse]

theorem last_space_decomp (l : List Char) (h : ' ' ∈ l) :
    ∃ a b, l = a ++ ' ' :: b ∧ ' ' ∉ b := by
  induction l with
  | nil => cases h
  | cons c rest ih =>
    by_cases hr : ' ' ∈ rest
    · rcases ih hr with ⟨a, b, hab, hb⟩
      exact ⟨c :: a, b, by rw [hab]; rfl, hb⟩
    · have hc : c = ' ' := by
        rcases List.mem_cons.mp h with h | h
        · exact h.symm
        · exact absurd h hr
      exact ⟨[], rest, by rw [hc]; rfl, hr⟩

theorem dropWhile_append_all (p : Char → Bool) (m n : List Char)
    (hm : ∀ c ∈ m, p c = true) : (m ++ n).dropWhile p = n.dropWhile p := by
  induction m with
  | nil => simp
  | cons c rest ih =>
    rw [List.cons_append, List.dropWhile_cons]
    have := hm c (by simp)
    simp only [this, ite_true]
    exact ih (fun d hd => hm d (List.mem_cons_of_mem _ hd))

theorem pyRsplitLeft_decomp (a b : List Char) (hb : ' ' ∉ b) :
    pyRsplitLeft (a ++ ' ' :: b) = a := by
  unfold pyRsplitLeft
  have hmem : ' ' ∈ a ++ ' ' :: b := List.mem_append_right _ (List.mem_cons_self _ _)
  rw [if_pos hmem]
  have hrev : (a ++ ' ' :: b).reverse = b.reverse ++ ' ' :: a.reverse := by
    simp
  rw [hrev]
  rw [dropWhile_append_all _ b.reverse (' ' :: a.reverse) ?hall]
  · rw [List.dropWhile_cons]
    simp
  · intro c hc
    have : c ≠ ' ' := by
      intro he
      exact hb (he ▸ List.mem_reverse.mp hc)
    simp [this]

theorem pyRsplitLeft_length_le (l : List Char) : (pyRsplitLeft l).length ≤ l.length := by
  by_cases h : ' ' ∈ l
  · rcases last_space_decomp l h with ⟨a, b, hab, hb⟩
    rw [hab, pyRsplitLeft_decomp a b hb]
    simp
  · rw [pyRsplitLeft, if_neg h]

theorem asString_length (l : List Char) : l.asString.length = l.length := rfl

theorem clean_description_eq (s : String) (hs : s ≠ "") :
    clean_description s
      = (pyStripChars (if 200 < (normalizeDesc s).length
          then pyRsplitLeft ((normalizeDesc s).take 200) ++ ('.' :: '.' :: '.' :: [])
          else normalizeDesc s)).asString := by
  simp [clean_description, hs]

theorem normalizeDesc_head?_eq_take (s : String) (h200 : 200 < (normalizeDesc s).length) :
    ((normalizeDesc s).take 200).head? = (normalizeDesc s).head? := by
  cases ht : normalizeDesc s with
  | nil =>
    rw [ht] at h200
    simp at h200
  | cons c0 rest =>
    rw [show (200 : Nat) = 199 + 1 from rfl, List.take_succ_cons]
    simp

theorem ellipsis_getLast (a : List Char) :
    (a ++ ('.' :: '.' :: '.' :: [])).getLast? = some '.' := by
  rw [show a ++ ('.' :: '.' :: '.' :: []) = (a ++ ['.', '.']) ++ ['.'] from by simp]
  exact List.getLast?_concat _

theorem strip_cut_noop (s : String) (a : List Char)
    (hanil : a ≠ [])
    (hhead : a.head? = (normalizeDesc s).head?) :
    pyStripChars (a ++ ('.' :: '.' :: '.' :: [])) = a ++ ('.' :: '.' :: '.' :: []) := by
  apply pyStripChars_noop
  · intro c hc
    rw [head?_append_of_ne_nil a _ hanil, hhead] at hc
    exact normalizeDesc_head s c hc
  · intro c hc
    rw [ellipsis_getLast] at hc
    cases hc
    decide

set_option maxRecDepth 40000 in
/-- C4 counterexample: on an input of 201 letters with no whitespace at
all, clean_description still truncates — at position 200 exactly, which is
not a whitespace cut — so the claim's description of the truncation as a
cut at the nearest whitespace at or before position 200 fails there. -/
theorem c4_counterexample :
    ¬ (∀ s : String, (clean_description s).length ≤ 203
        ∧ (200 < (normalizeDesc s).length →
            ∃ i, i ≤ 200 ∧ (normalizeDesc s)[i]? = some ' '
              ∧ clean_description s
                  = ((normalizeDesc s).take i ++ ('.' :: '.' :: '.' :: [])).asString)) := by
  intro h
  have ht : normalizeDesc (String.mk (List.replicate 201 'a')) = List.replicate 201 'a' := by
    decide
  obtain ⟨i, hi, hsp, _⟩ := (h (String.mk (List.replicate 201 'a'))).2 (by rw [ht]; decide)
  rw [ht, List.getElem?_replicate] at hsp
  by_cases hlt : i < 201
  · rw [if_pos hlt] at hsp
    cases hsp
  · rw [if_neg hlt] at hsp
    cases hsp

/-- C4 (amended): every cleaned description has length at most 200
characters plus the three-character ellipsis marker; and whenever the
whitespace-collapsed, noise-stripped text exceeds 200 characters, the
result is that text cut at the nearest whitespace at or before position
200 with the ellipsis appended when such a whitespace exists in the first
200 characters, and cut at exactly position 200 otherwise. -/
theorem c4_description_truncation (s : String) :
    (clean_description s).length ≤ 203
      ∧ (200 < (normalizeDesc s).length →
        ((∃ i, i < 200 ∧ (normalizeDesc s)[i]? = some ' ') →
          ∃ i, i < 200 ∧ (normalizeDesc s)[i]? = some ' '
            ∧ (∀ j c, i < j → j < 200 → (normalizeDesc s)[j]? = some c →
                py_isSpace c = false)
            ∧ clean_description s
                = ((normalizeDesc s).take i ++ ('.' :: '.' :: '.' :: [])).asString)
        ∧ ((∀ i, i < 200 → (normalizeDesc s)[i]? ≠ some ' ') →
          clean_description s
            = ((normalizeDesc s).take 200 ++ ('.' :: '.' :: '.' :: [])).asString)) := by
  by_cases hs : s = ""
  · subst hs
    constructor
    · decide
    · intro h200
      have : normalizeDesc "" = [] := rfl
      rw [this] at h200
      simp at h200
  · constructor
    · rw [clean_description_eq s hs, asString_length]
      by_cases h200 : 200 < (normalizeDesc s).length
      · rw [if_pos h200]
        have h1 := pyStripChars_length_le
          (pyRsplitLeft ((normalizeDesc s).take 200) ++ ('.' :: '.' :: '.' :: []))
        have h2 := pyRsplitLeft_length_le ((normalizeDesc s).take 200)
        have h3 : ((normalizeDesc s).take 200).length = 200 := by
          rw [List.length_take]
          omega
        simp only [List.length_append] at h1
        simp only [List.length_cons, List.length_nil] at h1
        omega
      · rw [if_neg h200]
        have h1 := pyStripChars_length_le (normalizeDesc s)
        omega
    · intro h200
      constructor
      · intro hex
        obtain ⟨i0, hi0, hsp0⟩ := hex
        have hmem : ' ' ∈ (normalizeDesc s).take 200 := by
          have hq : ((normalizeDesc s).take 200)[i0]? = some ' ' := by
            rw [List.getElem?_take, if_pos hi0]
            exact hsp0
          obtain ⟨hlt, hget⟩ := List.getElem?_eq_some.mp hq
          exact hget ▸ List.getElem_mem hlt
        obtain ⟨a, b, hab, hb⟩ := last_space_decomp _ hmem
        have hlen200 : ((normalizeDesc s).take 200).length = 200 := by
          rw [List.length_take]
          omega
        have halen : a.length + (b.length + 1) = 200 := by
          have hcl := congrArg List.length hab
          rw [hlen200] at hcl
          simp at hcl
          omega
        have halt : a.length < 200 := by omega
        have hanil : a ≠ [] := by
          intro hae
          subst hae
          simp only [List.nil_append] at hab
          have hh : (normalizeDesc s).head? = some ' ' := by
            rw [← normalizeDesc_head?_eq_take s h200, hab]
            rfl
          have := normalizeDesc_head s ' ' hh
          simp [py_isSpace] at this
        have hhead : a.head? = (normalizeDesc s).head? := by
          rw [← normalizeDesc_head?_eq_take s h200, hab]
          exact (head?_append_of_ne_nil a _ hanil).symm
        refine ⟨a.length, halt, ?_, ?_, ?_⟩
        · have h1 : (normalizeDesc s)[a.length]? = ((normalizeDesc s).take 200)[a.length]? := by
            rw [List.getElem?_take, if_pos halt]
          rw [h1, hab, List.getElem?_append_right (le_refl a.length)]
          simp
        · intro j c hij hj200 hjc
          have h1 : ((normalizeDesc s).take 200)[j]? = some c := by
            rw [List.getElem?_take, if_pos hj200]
            exact hjc
          rw [hab, List.getElem?_append_right (by omega : a.length ≤ j)] at h1
          rcases hk : j - a.length with _ | k
          · omega
          · rw [hk, List.getElem?_cons_succ] at h1
            obtain ⟨hlt, hget⟩ := List.getElem?_eq_some.mp h1
            have hcb : c ∈ b := hget ▸ List.getElem_mem hlt
            have hct : c ∈ normalizeDesc s := by
              have hmt : c ∈ (normalizeDesc s).take 200 := by
                rw [hab]
                exact List.mem_append_right _ (List.mem_cons_of_mem _ hcb)
              rw [← List.take_append_drop 200 (normalizeDesc s)]
              exact List.mem_append_left _ hmt
            by_contra hspc
            have hsp_t : py_isSpace c = true := by
              cases hx : py_isSpace c
              · exact absurd hx hspc
              · rfl
            exact hb ((normalizeDesc_space_mem s c hct hsp_t) ▸ hcb)
        · rw [clean_description_eq s hs, if_pos h200, hab, pyRsplitLeft_decomp a b hb]
          rw [strip_cut_noop s a hanil hhead]
          have ha_take : (normalizeDesc s).take a.length = a := by
            have h1 : (normalizeDesc s).take a.length
                = ((normalizeDesc s).take 200).take a.length := by
              rw [List.take_take, min_eq_left (le_of_lt halt)]
            rw [h1, hab]
            exact List.take_left a _
          rw [ha_take]
      · intro hnone
        rw [clean_description_eq s hs, if_pos h200]
        have hno : ' ' ∉ (normalizeDesc s).take 200 := by
          intro hmem
          obtain ⟨i, hgi⟩ := List.mem_iff_getElem?.mp hmem
          have hi : i < 200 := by
            obtain ⟨hlt, _⟩ := List.getElem?_eq_some.mp hgi
            rw [List.length_take] at hlt
            omega
          rw [List.getElem?_take, if_pos hi] at hgi
          exact hnone i hi hgi
        rw [pyRsplitLeft, if_neg hno]
        have htn : (normalizeDesc s).take 200 ≠ [] := by
          intro he
          have h0 : ((normalizeDesc s).take 200).length = 0 := by
            rw [he]
            rfl
          rw [List.length_take] at h0
          omega
        rw [strip_cut_noop s _ htn (normalizeDesc_head?_eq_take s h200)]

set_option maxRecDepth 40000 in
/-- Witness for C4: on a 251-character normalized text whose only space
sits at position 100, the cleaned description is the first 100 characters
plus the ellipsis. -/
theorem c4_description_truncation_witness :
    clean_description sWitC4
      = ((normalizeDesc sWitC4).take 100 ++ ('.' :: '.' :: '.' :: [])).asString := by
  have ht : normalizeDesc sWitC4 = List.replicate 100 'a' ++ ' ' :: List.replicate 150 'b' := by
    decide
  obtain ⟨i, hi, hsp, hmax, heq⟩ :=
    ((c4_description_truncation sWitC4).2 (by rw [ht]; decide)).1
      ⟨100, by omega, by rw [ht]; decide⟩
  have hieq : i = 100 := by
    by_contra hne
    rcases Nat.lt_or_ge i 100 with hlt | hgt
    · have := hmax 100 ' ' hlt (by omega) (by rw [ht]; decide)
      simp [py_isSpace] at this
    · have hno : ∀ j, j < 200 → 100 < j →
          (List.replicate 100 'a' ++ ' ' :: List.replicate 150 'b')[j]? ≠ some ' ' := by
        decide
      rw [ht] at hsp
      exact hno i hi (by omega) hsp
  rw [hieq] at heq
  exact heq
